import Mathlib

/-!
# The ADMM iteration kernel of OSQP (`src/aux.c`)

A shallow embedding of the auxiliary functions of the ADMM iteration and the
properties of them that the specification states.

Modelling conventions.

* `c_float` is an element of a linearly ordered field `F` (exact arithmetic);
  every definition is computable and can be evaluated at `F = ℚ`.
* A `c_float *` buffer is a map from offsets to values, `Vec F = Nat → F`; a
  store `v[i] = e` is `Function.update v i e`.
* The dimensions `n`, `m` are natural numbers; the loop counter never leaves
  the range of `c_int`.
* A `for (i = lo; i < hi; i++)` loop is a left fold of its body over
  `List.range' lo (hi - lo)`.
* The square root of the C library has no counterpart in an arbitrary ordered
  field; it is the parameter `c_sqrt` of every definition that calls it.
* Where rounding decides a property, the function is embedded a second time
  with the suffix `_fl`: the same expression in the same association, every
  arithmetic operation followed by the rounding `rnd` of `c_float` (each
  operation rounds on its own: no fused multiply-add, no extended precision).
  With `rnd` the identity this is the exact embedding; `rnd53` is
  round-to-nearest-even of IEEE binary64 and `sqrt53` its correctly rounded
  square root. Infinities and NaN are not part of either embedding.
-/

namespace OSQP

/-! ## Data model -/

/-- A buffer of `c_float`, addressed by offset. -/
abbrev Vec (F : Type) := Nat → F

/-- Modelled from the spec: the type of the quadratic term `P` is declared outside
`aux.c`; the spec calls it a matrix-like operator supporting quadratic-form
evaluation. It is given here by its dimension and its entries. -/
structure csc (F : Type) where
  n : Nat
  entry : Nat → Nat → F

/-- Problem data (`Data` of the header `aux.h`): dimensions, quadratic and
linear cost, bounds on the variables and on the constraints. -/
structure Data (F : Type) where
  n : Nat
  m : Nat
  P : csc F
  q : Vec F
  lx : Vec F
  ux : Vec F
  lA : Vec F
  uA : Vec F

/-- Solver settings. -/
structure Settings (F : Type) where
  rho : F
  alpha : F
  eps_abs : F
  eps_rel : F

/-- Solver information. -/
structure Info (F : Type) where
  iter : Int
  obj_val : F
  pri_res : F
  dua_res : F

/-- The workspace `Work`: problem data, settings, the iteration state
`x`, `z`, `z_prev`, `u` (each of length `n + m`) and the information record. -/
structure Work (F : Type) where
  data : Data F
  settings : Settings F
  x : Vec F
  z : Vec F
  z_prev : Vec F
  u : Vec F
  info : Info F

section Defs

variable {F : Type} [LinearOrderedField F]

/-! ## Helpers declared outside `aux.c` -/

/-- Modelled from the spec: the macro `c_max` of the headers, the `max` of the
clamp `min(max(value, lower), upper)`, as the usual conditional expression. -/
def c_max (a b : F) : F := if a > b then a else b

/-- Modelled from the spec: the macro `c_min` of the headers, the `min` of the
clamp `min(max(value, lower), upper)`, as the usual conditional expression. -/
def c_min (a b : F) : F := if a < b then a else b

/-- Modelled from the spec: `vec_prod(a, b, l)` of the linear algebra module,
the dot product of the first `l` entries. -/
def vec_prod (a b : Vec F) (l : Nat) : F :=
  ∑ i in Finset.range l, a i * b i

/-- Modelled from the spec: `quad_form(P, x)` of the linear algebra module,
the quadratic form of `P` at `x`. -/
def quad_form (P : csc F) (x : Vec F) : F :=
  ∑ i in Finset.range P.n, ∑ j in Finset.range P.n, x i * P.entry i j * x j

/-- Modelled from the spec: `vec_norm2(v, l)` of the linear algebra module,
the Euclidean norm of the first `l` entries. -/
def vec_norm2 (c_sqrt : F → F) (v : Vec F) (l : Nat) : F :=
  c_sqrt (∑ i in Finset.range l, v i * v i)

/-- Modelled from the spec: `vec_norm2_diff(a, b, l)` of the linear algebra
module, the Euclidean norm of the difference of the first `l` entries. -/
def vec_norm2_diff (c_sqrt : F → F) (a b : Vec F) (l : Nat) : F :=
  c_sqrt (∑ i in Finset.range l, (a i - b i) * (a i - b i))

/-- The library call `memset(v, 0, len * sizeof(c_float))`: the first `len`
entries become `0`. -/
def memset_zero (v : Vec F) (len : Nat) : Vec F :=
  fun i => if i < len then 0 else v i

/-- The loop `for (i = lo; i < hi; i++) body`. -/
def forLoop {σ : Type} (lo hi : Nat) (body : σ → Nat → σ) (s : σ) : σ :=
  (List.range' lo (hi - lo)).foldl body s

/-! ## The functions of `aux.c` -/

/-- Cold start workspace variables. -/
def cold_start (work : Work F) : Work F :=
  let w1 := { work with x := memset_zero work.x (work.data.n + work.data.m) }
  let w2 := { w1 with z := memset_zero w1.z (w1.data.n + w1.data.m) }
  { w2 with u := memset_zero w2.u (w2.data.n + w2.data.m) }

/-- Body of the first loop of `compute_rhs`. -/
def compute_rhs_body1 (work : Work F) (i : Nat) : Work F :=
  { work with
    x := (Function.update work.x i
      (work.settings.rho * (work.z i - work.u i) - work.data.q i)) }

/-- Body of the second loop of `compute_rhs`. -/
def compute_rhs_body2 (work : Work F) (i : Nat) : Work F :=
  { work with x := Function.update work.x i (work.z i - work.u i) }

/-- Update RHS during first step of ADMM iteration (store it into `x`). -/
def compute_rhs (work : Work F) : Work F :=
  let w1 := forLoop 0 work.data.n compute_rhs_body1 work
  forLoop w1.data.n (w1.data.n + w1.data.m) compute_rhs_body2 w1

/-- Body of the loop of `update_x`. -/
def update_x_body (work : Work F) (i : Nat) : Work F :=
  { work with
    x := (Function.update work.x i
      (1 / work.settings.rho * work.x i + work.z i - work.u i)) }

/-- Update `x` variable (slacks related part) after solving the linear system. -/
def update_x (work : Work F) : Work F :=
  forLoop work.data.n (work.data.n + work.data.m) update_x_body work

/-- Body of the first loop of `project_x`, in exact arithmetic; `project_x_body1_fl`
is the same body with every operation rounded. -/
def project_x_body1 (work : Work F) (i : Nat) : Work F :=
  { work with
    z := (Function.update work.z i
      (c_min (c_max (work.settings.alpha * work.x i +
          (1 - work.settings.alpha) * work.z_prev i + work.u i) (work.data.lx i))
        (work.data.ux i))) }

/-- Body of the second loop of `project_x`, in exact arithmetic;
`project_x_body2_fl` is the same body with every operation rounded. -/
def project_x_body2 (work : Work F) (i : Nat) : Work F :=
  { work with
    z := (Function.update work.z i
      (c_min (c_max (work.settings.alpha * work.x i +
          (1 - work.settings.alpha) * work.z_prev i + work.u i)
          (work.data.lA (i - work.data.n)))
        (work.data.uA (i - work.data.n)))) }

/-- Project `x` (second ADMM step). -/
def project_x (work : Work F) : Work F :=
  let w1 := forLoop 0 work.data.n project_x_body1 work
  forLoop w1.data.n (w1.data.n + w1.data.m) project_x_body2 w1

/-- Body of the loop of `update_u`, in exact arithmetic; `update_u_body_fl` is the
same body with every operation rounded. -/
def update_u_body (work : Work F) (i : Nat) : Work F :=
  { work with
    u := (Function.update work.u i
      (work.u i + (work.settings.alpha * work.x i +
        (1 - work.settings.alpha) * work.z_prev i - work.z i))) }

/-- Update `u` variable (third ADMM step). -/
def update_u (work : Work F) : Work F :=
  forLoop 0 (work.data.n + work.data.m) update_u_body work

/-- Compute objective function from data at value `x`. -/
def compute_obj_val (data : Data F) (x : Vec F) : F :=
  quad_form data.P x + vec_prod data.q x data.n

/-- Return norm of primal residual. -/
def compute_pri_res (c_sqrt : F → F) (work : Work F) : F :=
  vec_norm2_diff c_sqrt work.x work.z work.data.n

/-- Body of the loop of `compute_dua_res`, on the accumulator `norm_sq`. -/
def compute_dua_res_body (work : Work F) (norm_sq : F) (i : Nat) : F :=
  let temp := work.settings.rho * (work.z i - work.z_prev i)
  norm_sq + temp * temp

/-- Return norm of dual residual. -/
def compute_dua_res (c_sqrt : F → F) (work : Work F) : F :=
  let norm_sq := forLoop 0 work.data.n (compute_dua_res_body work) 0
  c_sqrt norm_sq

/-- Update solver information. -/
def update_info (c_sqrt : F → F) (work : Work F) (iter : Int) : Work F :=
  let w1 := { work with info := { work.info with iter := iter } }
  let w2 := { w1 with info := { w1.info with obj_val := compute_obj_val w1.data w1.z } }
  let w3 := { w2 with info := { w2.info with pri_res := compute_pri_res c_sqrt w2 } }
  { w3 with info := { w3.info with dua_res := compute_dua_res c_sqrt w3 } }

/-- The local `eps_pri` of `residuals_check`. -/
def eps_pri (c_sqrt : F → F) (work : Work F) : F :=
  c_sqrt ((work.data.n + work.data.m : Nat) : F) * work.settings.eps_abs +
    work.settings.eps_rel *
      c_max (vec_norm2 c_sqrt work.x (work.data.n + work.data.m))
        (vec_norm2 c_sqrt work.z (work.data.n + work.data.m))

/-- The local `eps_dua` of `residuals_check`. -/
def eps_dua (c_sqrt : F → F) (work : Work F) : F :=
  c_sqrt ((work.data.n + work.data.m : Nat) : F) * work.settings.eps_abs +
    work.settings.eps_rel * work.settings.rho *
      vec_norm2 c_sqrt work.u (work.data.n + work.data.m)

/-- Check if residuals norm meet the required tolerance. -/
def residuals_check (c_sqrt : F → F) (work : Work F) : Int :=
  let exitflag : Int := 0
  if work.info.pri_res < eps_pri c_sqrt work ∧ work.info.dua_res < eps_dua c_sqrt work
  then 1 else exitflag

end Defs

/-! ## The convergence criterion in the words of the specification -/

section SpecDefs

variable {F : Type} [LinearOrderedField F]

/-- Primal residual of the specification: the Euclidean norm of
`x[0..n) - z[0..n)`. -/
def spec_pri_res (c_sqrt : F → F) (w : Work F) : F :=
  c_sqrt (∑ i in Finset.range w.data.n, (w.x i - w.z i) ^ 2)

/-- Dual residual of the specification: the Euclidean norm of
`rho * (z[0..n) - z_prev[0..n))`. -/
def spec_dua_res (c_sqrt : F → F) (w : Work F) : F :=
  c_sqrt (∑ i in Finset.range w.data.n, (w.settings.rho * (w.z i - w.z_prev i)) ^ 2)

/-- Tolerance of the specification,
`eps_pri = sqrt(n+m)*eps_abs + eps_rel*max(‖x‖, ‖z‖)`, norms over `n+m` entries. -/
def spec_eps_pri (c_sqrt : F → F) (w : Work F) : F :=
  c_sqrt ((w.data.n + w.data.m : Nat) : F) * w.settings.eps_abs +
    w.settings.eps_rel *
      max (c_sqrt (∑ i in Finset.range (w.data.n + w.data.m), (w.x i) ^ 2))
        (c_sqrt (∑ i in Finset.range (w.data.n + w.data.m), (w.z i) ^ 2))

/-- Tolerance of the specification,
`eps_dua = sqrt(n+m)*eps_abs + eps_rel*rho*‖u‖`, norm over `n+m` entries. -/
def spec_eps_dua (c_sqrt : F → F) (w : Work F) : F :=
  c_sqrt ((w.data.n + w.data.m : Nat) : F) * w.settings.eps_abs +
    w.settings.eps_rel * w.settings.rho *
      c_sqrt (∑ i in Finset.range (w.data.n + w.data.m), (w.u i) ^ 2)

end SpecDefs

/-! ## Concrete inputs -/

/-- Integer square root by search, the largest `k` with `k * k ≤ n`. -/
def isqrt (n : Nat) : Nat :=
  ((List.range (n + 1)).filter (fun k => k * k ≤ n)).length - 1

/-- An executable square root on `ℚ` for concrete inputs: exact on the squares of
rationals. -/
def sqrtQ (a : ℚ) : ℚ :=
  (isqrt a.num.toNat : ℚ) / (isqrt a.den : ℚ)

/-- A buffer given by the list of its leading entries (zero after them). -/
def vecOf (l : List ℚ) : Vec ℚ := fun i => l.getD i 0

/-- A workspace with one variable and one constraint row. -/
def exWork : Work ℚ :=
  { data :=
      { n := 1, m := 1, P := ⟨1, fun _ _ => 0⟩, q := vecOf [2],
        lx := vecOf [0], ux := vecOf [1], lA := vecOf [-1], uA := vecOf [5] },
    settings := { rho := 2, alpha := 1, eps_abs := 1, eps_rel := 0 },
    x := vecOf [3, 4], z := vecOf [1, 2], z_prev := vecOf [1, 1], u := vecOf [1, 7],
    info := { iter := 0, obj_val := 0, pri_res := 0, dua_res := 0 } }

/-- A workspace with one variable and no constraint, whose information record
holds the residuals of an earlier iterate (`x = z`), not those of the current
`x = [2]`, `z = [0]`. -/
def staleWork : Work ℚ :=
  { data :=
      { n := 1, m := 0, P := ⟨1, fun _ _ => 0⟩, q := vecOf [0],
        lx := vecOf [0], ux := vecOf [1], lA := vecOf [], uA := vecOf [] },
    settings := { rho := 1, alpha := 1, eps_abs := 1, eps_rel := 0 },
    x := vecOf [2], z := vecOf [0], z_prev := vecOf [0], u := vecOf [0],
    info := { iter := 0, obj_val := 0, pri_res := 0, dua_res := 0 } }

/-- The workspace `staleWork` with another primal residual in the information
record, everything else the same. -/
def staleWork2 : Work ℚ :=
  { staleWork with info := { staleWork.info with pri_res := 5 } }

/-- The workspace `staleWork` with another iteration count and objective value in
the information record, everything else the same. -/
def staleWork3 : Work ℚ :=
  { staleWork with info := { staleWork.info with iter := 7, obj_val := 3 } }

/-- A stationary state: `x = z = z_prev` on all `n + m = 2` entries. -/
def fixWork : Work ℚ :=
  { exWork with x := vecOf [1, 2], z := vecOf [1, 2], z_prev := vecOf [1, 2] }

/-- The workspace `exWork` with both tolerances set to zero. -/
def zeroTolWork : Work ℚ :=
  { exWork with settings := { rho := 2, alpha := 1, eps_abs := 0, eps_rel := 0 } }

/-- A workspace whose bounds are crossed at both indices: `lx[0] = 3 > ux[0] = 1`
and `lA[0] = 4 > uA[0] = 2`. -/
def crossedWork : Work ℚ :=
  { exWork with
    data := { exWork.data with lx := vecOf [3], ux := vecOf [1], lA := vecOf [4], uA := vecOf [2] } }

/-- A workspace over any ordered field, with one variable and one constraint row:
`rho = 3`, `x = [5, 1]`, `z = [2, 7]`, `z_prev = [1, 4]`. Used at `F = ℝ`,
where the square root is exact. -/
def fieldWork (F : Type) [LinearOrderedField F] : Work F :=
  { data :=
      { n := 1, m := 1, P := ⟨1, fun _ _ => 0⟩, q := fun _ => 1,
        lx := fun _ => 0, ux := fun _ => 1, lA := fun _ => 0, uA := fun _ => 1 },
    settings := { rho := 3, alpha := 1, eps_abs := 1, eps_rel := 1 },
    x := fun i => if i = 0 then 5 else 1,
    z := fun i => if i = 0 then 2 else 7,
    z_prev := fun i => if i = 0 then 1 else 4,
    u := fun _ => 0,
    info := { iter := 0, obj_val := 0, pri_res := 0, dua_res := 0 } }

/-- The objective example of the specification: `n = 2`, `q = [1, 1]`, zero
quadratic term. -/
def objData : Data ℚ :=
  { n := 2, m := 0, P := ⟨2, fun _ _ => 0⟩, q := vecOf [1, 1],
    lx := vecOf [0, 0], ux := vecOf [9, 9], lA := vecOf [], uA := vecOf [] }

/-! ## Per-index updates in an arbitrary order -/

section Order

variable {F : Type} [LinearOrderedField F]

/-- The update of `compute_rhs` at index `i`: the body of the first loop below
`n`, the body of the second loop from `n` on. -/
def compute_rhs_index (work : Work F) (i : Nat) : Work F :=
  if i < work.data.n then compute_rhs_body1 work i else compute_rhs_body2 work i

/-- The update of `project_x` at index `i`: the body of the first loop below `n`,
the body of the second loop from `n` on. -/
def project_x_index (work : Work F) (i : Nat) : Work F :=
  if i < work.data.n then project_x_body1 work i else project_x_body2 work i

/-- Execute the per-index update `body` at the indices of `order`, in that order. -/
def runInOrder {σ : Type} (body : σ → Nat → σ) (order : List Nat) (s : σ) : σ :=
  order.foldl body s

/-- The workspaces `w` and `w2` have the same dimensions and settings and the same
index-`i` entries of every operand (the constraint bounds at offset `i - n`). -/
def agreeAt (w w2 : Work F) (i : Nat) : Prop :=
  w2.data.n = w.data.n ∧ w2.data.m = w.data.m ∧ w2.settings = w.settings ∧
  w2.x i = w.x i ∧ w2.z i = w.z i ∧ w2.z_prev i = w.z_prev i ∧ w2.u i = w.u i ∧
  w2.data.q i = w.data.q i ∧ w2.data.lx i = w.data.lx i ∧ w2.data.ux i = w.data.ux i ∧
  w2.data.lA (i - w.data.n) = w.data.lA (i - w.data.n) ∧
  w2.data.uA (i - w.data.n) = w.data.uA (i - w.data.n)

/-- The workspace `w` with other tolerances, everything else the same. -/
def withTolerances (w : Work F) (eps_abs eps_rel : F) : Work F :=
  { w with settings := { w.settings with eps_abs := eps_abs, eps_rel := eps_rel } }

/-- The lower bound that `project_x` uses at index `i`. -/
def lowerAt (w : Work F) (i : Nat) : F :=
  if i < w.data.n then w.data.lx i else w.data.lA (i - w.data.n)

/-- The upper bound that `project_x` uses at index `i`. -/
def upperAt (w : Work F) (i : Nat) : F :=
  if i < w.data.n then w.data.ux i else w.data.uA (i - w.data.n)

/-- The relaxed value `alpha*x[i] + (1-alpha)*z_prev[i] + u[i]` that `project_x`
clamps at index `i`. -/
def relaxedAt (w : Work F) (i : Nat) : F :=
  w.settings.alpha * w.x i + (1 - w.settings.alpha) * w.z_prev i + w.u i

end Order

/-! ## Rounded arithmetic -/

section Rounded

variable {F : Type} [LinearOrderedField F]

/-- Accumulation `acc += f i` for `i = 0, ..., k-1` from `acc = 0`, each addition
rounded. -/
def fl_sum (rnd : F → F) (f : Nat → F) : Nat → F
  | 0 => 0
  | k + 1 => rnd (fl_sum rnd f k + f k)

/-- Modelled from the spec: `vec_norm2_diff(a, b, l)` of the linear algebra
module, the Euclidean norm of the difference of the first `l` entries, with
every operation rounded and the squares accumulated in index order. -/
def vec_norm2_diff_fl (rnd c_sqrt : F → F) (a b : Vec F) (l : Nat) : F :=
  c_sqrt (fl_sum rnd (fun i => rnd (rnd (a i - b i) * rnd (a i - b i))) l)

/-- Body of the first loop of `project_x`, every operation rounded. -/
def project_x_body1_fl (rnd : F → F) (work : Work F) (i : Nat) : Work F :=
  { work with
    z := (Function.update work.z i
      (c_min (c_max (rnd (rnd (rnd (work.settings.alpha * work.x i) +
          rnd (rnd (1 - work.settings.alpha) * work.z_prev i)) + work.u i)) (work.data.lx i))
        (work.data.ux i))) }

/-- Body of the second loop of `project_x`, every operation rounded. -/
def project_x_body2_fl (rnd : F → F) (work : Work F) (i : Nat) : Work F :=
  { work with
    z := (Function.update work.z i
      (c_min (c_max (rnd (rnd (rnd (work.settings.alpha * work.x i) +
          rnd (rnd (1 - work.settings.alpha) * work.z_prev i)) + work.u i))
          (work.data.lA (i - work.data.n)))
        (work.data.uA (i - work.data.n)))) }

/-- Project `x` (second ADMM step), every operation rounded. -/
def project_x_fl (rnd : F → F) (work : Work F) : Work F :=
  let w1 := forLoop 0 work.data.n (project_x_body1_fl rnd) work
  forLoop w1.data.n (w1.data.n + w1.data.m) (project_x_body2_fl rnd) w1

/-- Body of the loop of `update_u`, every operation rounded. -/
def update_u_body_fl (rnd : F → F) (work : Work F) (i : Nat) : Work F :=
  { work with
    u := (Function.update work.u i
      (rnd (work.u i + rnd (rnd (rnd (work.settings.alpha * work.x i) +
        rnd (rnd (1 - work.settings.alpha) * work.z_prev i)) - work.z i)))) }

/-- Update `u` variable (third ADMM step), every operation rounded. -/
def update_u_fl (rnd : F → F) (work : Work F) : Work F :=
  forLoop 0 (work.data.n + work.data.m) (update_u_body_fl rnd) work

/-- Return norm of primal residual, every operation rounded. -/
def compute_pri_res_fl (rnd c_sqrt : F → F) (work : Work F) : F :=
  vec_norm2_diff_fl rnd c_sqrt work.x work.z work.data.n

/-- Body of the loop of `compute_dua_res` on the accumulator `norm_sq`, every
operation rounded. -/
def compute_dua_res_body_fl (rnd : F → F) (work : Work F) (norm_sq : F) (i : Nat) : F :=
  let temp := rnd (work.settings.rho * rnd (work.z i - work.z_prev i))
  rnd (norm_sq + rnd (temp * temp))

/-- Return norm of dual residual, every operation rounded. -/
def compute_dua_res_fl (rnd c_sqrt : F → F) (work : Work F) : F :=
  let norm_sq := forLoop 0 work.data.n (compute_dua_res_body_fl rnd work) 0
  c_sqrt norm_sq

/-- The relaxed value as `project_x` computes it at index `i`:
`alpha*x[i] + (1-alpha)*z_prev[i] + u[i]`, every operation rounded. -/
def relaxed_fl (rnd : F → F) (w : Work F) (i : Nat) : F :=
  rnd (rnd (rnd (w.settings.alpha * w.x i) + rnd (rnd (1 - w.settings.alpha) * w.z_prev i))
    + w.u i)

/-- The term `(rho*(z[i] - z_prev[i]))^2` as `compute_dua_res` computes it, every
operation rounded. -/
def dua_term_fl (rnd : F → F) (w : Work F) (i : Nat) : F :=
  rnd (rnd (w.settings.rho * rnd (w.z i - w.z_prev i)) *
    rnd (w.settings.rho * rnd (w.z i - w.z_prev i)))

end Rounded

/-! ## IEEE binary64 -/

/-- Nearest integer, ties to the even one. -/
def roundHalfEven (s : ℚ) : ℤ :=
  if s - ⌊s⌋ < 1 / 2 then ⌊s⌋
  else if 1 / 2 < s - ⌊s⌋ then ⌊s⌋ + 1
  else if ⌊s⌋ % 2 = 0 then ⌊s⌋ else ⌊s⌋ + 1

/-- The spacing of the binary64 numbers around `q`: `2^(e-52)` for
`2^e ≤ |q| < 2^(e+1)`, and `2^(-1074)` in the subnormal range. -/
def ulp53 (q : ℚ) : ℚ := (2 : ℚ) ^ (max (Int.log 2 |q| - 52) (-1074))

/-- Rounding to the nearest binary64 number, ties to even (the default rounding
of a `double` operation). The exponent is not bounded above: overflow to
infinity is outside this model. -/
def rnd53 (q : ℚ) : ℚ := roundHalfEven (q / ulp53 q) * ulp53 q

/-- The correctly rounded binary64 square root; `0` on arguments that are not
positive. -/
def sqrt53 (q : ℚ) : ℚ :=
  if q ≤ 0 then 0 else
    let k : ℤ := Int.log 2 q / 2 - 52
    let t : ℚ := q / ((2 : ℚ) ^ k) ^ 2
    let s : ℕ := Nat.sqrt ⌊t⌋₊
    let m : ℕ :=
      if t < ((s : ℚ) + 1 / 2) ^ 2 then s
      else if ((s : ℚ) + 1 / 2) ^ 2 < t then s + 1
      else if s % 2 = 0 then s else s + 1
    (m : ℚ) * (2 : ℚ) ^ k

/-- The binary64 number nearest to `0.1`. -/
def d01 : ℚ := 3602879701896397 / 2 ^ 55

/-- The binary64 number nearest to `0.2`. -/
def d02 : ℚ := 3602879701896397 / 2 ^ 54

/-- The binary64 number nearest to `0.3`. -/
def d03 : ℚ := 5404319552844595 / 2 ^ 54

/-- One variable, no constraint row, bounds `[-1, 1]`, all buffers `0`; the base of
the binary64 examples. -/
def baseWork64 : Work ℚ :=
  { data :=
      { n := 1, m := 0, P := ⟨1, fun _ _ => 0⟩, q := fun _ => 0,
        lx := fun _ => -1, ux := fun _ => 1, lA := fun _ => 0, uA := fun _ => 0 },
    settings := { rho := 1, alpha := 1, eps_abs := 0, eps_rel := 0 },
    x := fun _ => 0, z := fun _ => 0, z_prev := fun _ => 0, u := fun _ => 0,
    info := { iter := 0, obj_val := 0, pri_res := 0, dua_res := 0 } }

/-- A stationary state in binary64: `x = z = z_prev = [0.1]`, `u = [0]`,
`alpha = 1.5`. -/
def stationary64 : Work ℚ :=
  { baseWork64 with
    settings := { rho := 1, alpha := 3 / 2, eps_abs := 0, eps_rel := 0 },
    x := fun _ => d01, z := fun _ => d01, z_prev := fun _ => d01 }

/-- The stationary state `x = z = z_prev = [0.1]`, `u = [0.2]` with `alpha = 1`. -/
def stationary64one : Work ℚ :=
  { baseWork64 with x := fun _ => d01, z := fun _ => d01, z_prev := fun _ => d01,
                    u := fun _ => d02 }

/-- Before the projection, in binary64: `alpha = 1`, `x = [0.1]`, `z_prev = [0]`,
`u = [0.2]`, bounds `[-1, 1]`. -/
def interior64 : Work ℚ :=
  { baseWork64 with x := fun _ => d01, u := fun _ => d02 }

/-- The workspace `interior64` with the upper bound `0.25`, below the relaxed value. -/
def clamped64 : Work ℚ :=
  { interior64 with data := { interior64.data with ux := fun _ => 1 / 4 } }

/-- Two variables, `rho = 0.1`, `z = [0.1, 0.3]`, `z_prev = [0, 0]`, in binary64. -/
def scaled64 : Work ℚ :=
  { baseWork64 with
    data := { baseWork64.data with n := 2, P := ⟨2, fun _ _ => 0⟩ },
    settings := { rho := d01, alpha := 1, eps_abs := 0, eps_rel := 0 },
    z := fun i => if i = 0 then d01 else d03 }

/-! ## Loops -/

section Loops

variable {F : Type} [LinearOrderedField F]

theorem forLoop_empty {σ : Type} (lo : Nat) (body : σ → Nat → σ) (s : σ) :
    forLoop lo lo body s = s := by
  simp [forLoop]

theorem forLoop_step {σ : Type} (lo k : Nat) (body : σ → Nat → σ) (s : σ) :
    forLoop lo (lo + (k + 1)) body s = body (forLoop lo (lo + k) body s) (lo + k) := by
  simp [forLoop, List.range'_concat]

theorem compute_rhs_loop1 (w : Work F) (k : Nat) :
    forLoop 0 (0 + k) compute_rhs_body1 w =
      { w with
        x := fun j => if j < k then w.settings.rho * (w.z j - w.u j) - w.data.q j else w.x j } := by
  induction k with
  | zero => simp [forLoop_empty]
  | succ k ih =>
    rw [forLoop_step, ih]
    simp only [compute_rhs_body1, Nat.zero_add]
    congr 1
    funext j
    by_cases hj : j = k
    · subst hj; simp
    · have : (j < k + 1) = (j < k) := by apply propext; omega
      simp [Function.update_noteq hj, this]

theorem compute_rhs_loop2 (w : Work F) (lo k : Nat) :
    forLoop lo (lo + k) compute_rhs_body2 w =
      { w with x := fun j => if lo ≤ j ∧ j < lo + k then w.z j - w.u j else w.x j } := by
  induction k with
  | zero =>
    have : ∀ j, ¬ (lo ≤ j ∧ j < lo) := by omega
    simp [forLoop_empty, this]
  | succ k ih =>
    rw [forLoop_step, ih]
    simp only [compute_rhs_body2]
    congr 1
    funext j
    by_cases hj : j = lo + k
    · subst hj; simp
    · have : (lo ≤ j ∧ j < lo + (k + 1)) = (lo ≤ j ∧ j < lo + k) := by apply propext; omega
      simp [Function.update_noteq hj, this]

theorem update_x_loop (w : Work F) (lo k : Nat) :
    forLoop lo (lo + k) update_x_body w =
      { w with
        x := fun j => if lo ≤ j ∧ j < lo + k
          then 1 / w.settings.rho * w.x j + w.z j - w.u j else w.x j } := by
  induction k with
  | zero =>
    have : ∀ j, ¬ (lo ≤ j ∧ j < lo) := by omega
    simp [forLoop_empty, this]
  | succ k ih =>
    rw [forLoop_step, ih]
    simp only [update_x_body]
    congr 1
    funext j
    by_cases hj : j = lo + k
    · subst hj; simp
    · have : (lo ≤ j ∧ j < lo + (k + 1)) = (lo ≤ j ∧ j < lo + k) := by apply propext; omega
      simp [Function.update_noteq hj, this]

theorem project_x_loop1 (w : Work F) (k : Nat) :
    forLoop 0 (0 + k) project_x_body1 w =
      { w with
        z := fun j => if j < k
          then c_min (c_max (w.settings.alpha * w.x j + (1 - w.settings.alpha) * w.z_prev j
            + w.u j) (w.data.lx j)) (w.data.ux j)
          else w.z j } := by
  induction k with
  | zero => simp [forLoop_empty]
  | succ k ih =>
    rw [forLoop_step, ih]
    simp only [project_x_body1, Nat.zero_add]
    congr 1
    funext j
    by_cases hj : j = k
    · subst hj; simp
    · have : (j < k + 1) = (j < k) := by apply propext; omega
      simp [Function.update_noteq hj, this]

theorem project_x_loop2 (w : Work F) (lo k : Nat) :
    forLoop lo (lo + k) project_x_body2 w =
      { w with
        z := fun j => if lo ≤ j ∧ j < lo + k
          then c_min (c_max (w.settings.alpha * w.x j + (1 - w.settings.alpha) * w.z_prev j
            + w.u j) (w.data.lA (j - w.data.n))) (w.data.uA (j - w.data.n))
          else w.z j } := by
  induction k with
  | zero =>
    have : ∀ j, ¬ (lo ≤ j ∧ j < lo) := by omega
    simp [forLoop_empty, this]
  | succ k ih =>
    rw [forLoop_step, ih]
    simp only [project_x_body2]
    congr 1
    funext j
    by_cases hj : j = lo + k
    · subst hj; simp
    · have : (lo ≤ j ∧ j < lo + (k + 1)) = (lo ≤ j ∧ j < lo + k) := by apply propext; omega
      simp [Function.update_noteq hj, this]

theorem update_u_loop (w : Work F) (k : Nat) :
    forLoop 0 (0 + k) update_u_body w =
      { w with
        u := fun j => if j < k
          then w.u j + (w.settings.alpha * w.x j + (1 - w.settings.alpha) * w.z_prev j - w.z j)
          else w.u j } := by
  induction k with
  | zero => simp [forLoop_empty]
  | succ k ih =>
    rw [forLoop_step, ih]
    simp only [update_u_body, Nat.zero_add]
    congr 1
    funext j
    by_cases hj : j = k
    · subst hj; simp
    · have : (j < k + 1) = (j < k) := by apply propext; omega
      simp [Function.update_noteq hj, this]

theorem compute_dua_res_loop (w : Work F) (k : Nat) :
    forLoop 0 (0 + k) (compute_dua_res_body w) 0 =
      ∑ i in Finset.range k,
        (w.settings.rho * (w.z i - w.z_prev i)) * (w.settings.rho * (w.z i - w.z_prev i)) := by
  induction k with
  | zero => simp [forLoop_empty]
  | succ k ih =>
    rw [forLoop_step, ih, Finset.sum_range_succ]
    simp [compute_dua_res_body]

/-! ## Closed forms of the operations -/

theorem compute_rhs_eq (w : Work F) :
    compute_rhs w =
      { w with
        x := fun j =>
          if j < w.data.n then w.settings.rho * (w.z j - w.u j) - w.data.q j
          else if j < w.data.n + w.data.m then w.z j - w.u j else w.x j } := by
  have h1 := compute_rhs_loop1 w w.data.n
  rw [Nat.zero_add] at h1
  simp only [compute_rhs, h1, compute_rhs_loop2]
  congr 1
  funext j
  by_cases hj : j < w.data.n
  · have : ¬ (w.data.n ≤ j ∧ j < w.data.n + w.data.m) := by omega
    simp [hj, this]
  · have : (w.data.n ≤ j ∧ j < w.data.n + w.data.m) = (j < w.data.n + w.data.m) := by
      apply propext; omega
    simp [hj, this]

theorem update_x_eq (w : Work F) :
    update_x w =
      { w with
        x := fun j =>
          if w.data.n ≤ j ∧ j < w.data.n + w.data.m
          then 1 / w.settings.rho * w.x j + w.z j - w.u j else w.x j } := by
  simp only [update_x, update_x_loop]

theorem project_x_eq (w : Work F) :
    project_x w =
      { w with
        z := fun j =>
          if j < w.data.n then
            c_min (c_max (w.settings.alpha * w.x j + (1 - w.settings.alpha) * w.z_prev j
              + w.u j) (w.data.lx j)) (w.data.ux j)
          else if j < w.data.n + w.data.m then
            c_min (c_max (w.settings.alpha * w.x j + (1 - w.settings.alpha) * w.z_prev j
              + w.u j) (w.data.lA (j - w.data.n))) (w.data.uA (j - w.data.n))
          else w.z j } := by
  have h1 := project_x_loop1 w w.data.n
  rw [Nat.zero_add] at h1
  simp only [project_x, h1, project_x_loop2]
  congr 1
  funext j
  by_cases hj : j < w.data.n
  · have : ¬ (w.data.n ≤ j ∧ j < w.data.n + w.data.m) := by omega
    simp [hj, this]
  · have : (w.data.n ≤ j ∧ j < w.data.n + w.data.m) = (j < w.data.n + w.data.m) := by
      apply propext; omega
    simp [hj, this]

theorem update_u_eq (w : Work F) :
    update_u w =
      { w with
        u := fun j =>
          if j < w.data.n + w.data.m
          then w.u j + (w.settings.alpha * w.x j + (1 - w.settings.alpha) * w.z_prev j - w.z j)
          else w.u j } := by
  have h1 := update_u_loop w (w.data.n + w.data.m)
  rw [Nat.zero_add] at h1
  simp only [update_u, h1]

theorem compute_dua_res_eq (c_sqrt : F → F) (w : Work F) :
    compute_dua_res c_sqrt w =
      c_sqrt (∑ i in Finset.range w.data.n,
        (w.settings.rho * (w.z i - w.z_prev i)) * (w.settings.rho * (w.z i - w.z_prev i))) := by
  have h1 := compute_dua_res_loop w w.data.n
  rw [Nat.zero_add] at h1
  simp only [compute_dua_res, h1]

theorem c_max_eq_max (a b : F) : c_max a b = max a b := by
  unfold c_max
  split_ifs with h
  · exact (max_eq_left (le_of_lt h)).symm
  · exact (max_eq_right (not_lt.mp h)).symm

theorem c_min_eq_min (a b : F) : c_min a b = min a b := by
  unfold c_min
  split_ifs with h
  · exact (min_eq_left (le_of_lt h)).symm
  · exact (min_eq_right (not_lt.mp h)).symm

theorem isqrt_zero : isqrt 0 = 0 := by decide

theorem isqrt_one : isqrt 1 = 1 := by decide

theorem isqrt_four : isqrt 4 = 2 := by decide

theorem sqrtQ_zero : sqrtQ 0 = 0 := by
  simp [sqrtQ, isqrt_zero]

theorem sqrtQ_one : sqrtQ 1 = 1 := by
  simp [sqrtQ, isqrt_one]

theorem sqrtQ_four : sqrtQ 4 = 2 := by
  have h1 : (4 : ℚ).num = 4 := rfl
  have h2 : (4 : ℚ).den = 1 := rfl
  simp [sqrtQ, h1, h2, isqrt_one, isqrt_four]

theorem sqrtQ_nonneg (a : ℚ) : 0 ≤ sqrtQ a := by
  unfold sqrtQ
  positivity

/-! ## The information record -/

theorem update_info_pri_res (c_sqrt : F → F) (w : Work F) (iter : Int) :
    (update_info c_sqrt w iter).info.pri_res = compute_pri_res c_sqrt w := rfl

theorem update_info_dua_res (c_sqrt : F → F) (w : Work F) (iter : Int) :
    (update_info c_sqrt w iter).info.dua_res = compute_dua_res c_sqrt w := rfl

theorem eps_pri_update_info (c_sqrt : F → F) (w : Work F) (iter : Int) :
    eps_pri c_sqrt (update_info c_sqrt w iter) = eps_pri c_sqrt w := rfl

theorem eps_dua_update_info (c_sqrt : F → F) (w : Work F) (iter : Int) :
    eps_dua c_sqrt (update_info c_sqrt w iter) = eps_dua c_sqrt w := rfl

theorem residuals_check_eq_one (c_sqrt : F → F) (w : Work F) :
    residuals_check c_sqrt w = 1 ↔
      w.info.pri_res < eps_pri c_sqrt w ∧ w.info.dua_res < eps_dua c_sqrt w := by
  unfold residuals_check
  split_ifs with h
  · simp [h]
  · simp [h]

theorem residuals_check_eq_zero (c_sqrt : F → F) (w : Work F) :
    residuals_check c_sqrt w = 0 ↔
      ¬ (w.info.pri_res < eps_pri c_sqrt w ∧ w.info.dua_res < eps_dua c_sqrt w) := by
  unfold residuals_check
  split_ifs with h
  · simp [h]
  · simp [h]

theorem sum_mul_self_nonneg (f : Nat → F) (l : Nat) :
    0 ≤ ∑ i in Finset.range l, f i * f i :=
  Finset.sum_nonneg (fun i _ => mul_self_nonneg (f i))

theorem compute_pri_res_eq_spec (c_sqrt : F → F) (w : Work F) :
    compute_pri_res c_sqrt w = spec_pri_res c_sqrt w := by
  simp only [compute_pri_res, vec_norm2_diff, spec_pri_res, sq]

theorem compute_dua_res_eq_spec (c_sqrt : F → F) (w : Work F) :
    compute_dua_res c_sqrt w = spec_dua_res c_sqrt w := by
  simp only [compute_dua_res_eq, spec_dua_res, sq]

theorem eps_pri_eq_spec (c_sqrt : F → F) (w : Work F) :
    eps_pri c_sqrt w = spec_eps_pri c_sqrt w := by
  simp only [eps_pri, vec_norm2, spec_eps_pri, sq, c_max_eq_max]

theorem eps_dua_eq_spec (c_sqrt : F → F) (w : Work F) :
    eps_dua c_sqrt w = spec_eps_dua c_sqrt w := by
  simp only [eps_dua, vec_norm2, spec_eps_dua, sq]

theorem eps_pri_staleWork : eps_pri sqrtQ staleWork = 1 := by
  simp [eps_pri, staleWork, sqrtQ_one]

theorem eps_dua_staleWork : eps_dua sqrtQ staleWork = 1 := by
  simp [eps_dua, staleWork, sqrtQ_one]

theorem residuals_check_staleWork : residuals_check sqrtQ staleWork = 1 := by
  rw [residuals_check_eq_one, eps_pri_staleWork, eps_dua_staleWork]
  simp [staleWork]

end Loops

/-! ## Properties of the specification -/

section Claims

variable {F : Type} [LinearOrderedField F]

/-- C1, refuted as stated. On `staleWork` the information record holds zero
residuals while the current state has `x = [2]`, `z = [0]`: the check returns
`1` although the primal residual of the current state, `2`, is not below
`eps_pri = 1`. -/
theorem residuals_check_not_current_state :
    ¬ (residuals_check sqrtQ staleWork = 1 ↔
        (spec_pri_res sqrtQ staleWork < spec_eps_pri sqrtQ staleWork ∧
          spec_dua_res sqrtQ staleWork < spec_eps_dua sqrtQ staleWork)) := by
  intro h
  have h1 := (h.mp residuals_check_staleWork).1
  rw [← eps_pri_eq_spec, eps_pri_staleWork] at h1
  have h2 : spec_pri_res sqrtQ staleWork = 2 := by
    have h4 : ((2 : ℚ) ^ 2) = 4 := by norm_num
    simp [spec_pri_res, staleWork, vecOf, h4, sqrtQ_four]
  rw [h2] at h1
  norm_num at h1

/-- C1, amended. For every workspace, `residuals_check` returns `1` if and only if
the primal residual recorded in the information record is strictly below
`eps_pri` and the recorded dual residual is strictly below `eps_dua`, with
`eps_pri = sqrt(n+m)*eps_abs + eps_rel*max(‖x‖, ‖z‖)` and
`eps_dua = sqrt(n+m)*eps_abs + eps_rel*rho*‖u‖` over all `n+m` entries, and
`0` otherwise. When the record holds the residuals of the current state, as
it does right after `update_info`, this is the criterion on the Euclidean
norms of `x[0..n) - z[0..n)` and `rho*(z[0..n) - z_prev[0..n))`. -/
theorem residuals_check_recorded (c_sqrt : F → F) (w : Work F) :
    (residuals_check c_sqrt w = 1 ↔
      (w.info.pri_res < spec_eps_pri c_sqrt w ∧ w.info.dua_res < spec_eps_dua c_sqrt w)) ∧
    (residuals_check c_sqrt w = 0 ↔
      ¬ (w.info.pri_res < spec_eps_pri c_sqrt w ∧ w.info.dua_res < spec_eps_dua c_sqrt w)) ∧
    (w.info.pri_res = spec_pri_res c_sqrt w → w.info.dua_res = spec_dua_res c_sqrt w →
      (residuals_check c_sqrt w = 1 ↔
        (spec_pri_res c_sqrt w < spec_eps_pri c_sqrt w ∧
          spec_dua_res c_sqrt w < spec_eps_dua c_sqrt w))) ∧
    (∀ iter, residuals_check c_sqrt (update_info c_sqrt w iter) = 1 ↔
      (spec_pri_res c_sqrt w < spec_eps_pri c_sqrt w ∧
        spec_dua_res c_sqrt w < spec_eps_dua c_sqrt w)) := by
  refine ⟨?_, ?_, ?_, ?_⟩
  · rw [residuals_check_eq_one, eps_pri_eq_spec, eps_dua_eq_spec]
  · rw [residuals_check_eq_zero, eps_pri_eq_spec, eps_dua_eq_spec]
  · intro hp hd
    rw [residuals_check_eq_one, eps_pri_eq_spec, eps_dua_eq_spec, hp, hd]
  · intro iter
    rw [residuals_check_eq_one, eps_pri_update_info, eps_dua_update_info,
      update_info_pri_res, update_info_dua_res, eps_pri_eq_spec, eps_dua_eq_spec,
      compute_pri_res_eq_spec, compute_dua_res_eq_spec]

/-- Witness of the amended C1 on `fixWork`, whose record (zero residuals) is that of
its current state `x = z = z_prev`. -/
theorem residuals_check_recorded_witness :
    residuals_check sqrtQ fixWork = 1 ↔
      (spec_pri_res sqrtQ fixWork < spec_eps_pri sqrtQ fixWork ∧
        spec_dua_res sqrtQ fixWork < spec_eps_dua sqrtQ fixWork) :=
  (residuals_check_recorded sqrtQ fixWork).2.2.1
    (by simp [spec_pri_res, fixWork, exWork, sqrtQ_zero])
    (by simp [spec_dua_res, fixWork, exWork, sqrtQ_zero])

/-- C2, refuted as stated. The workspaces `staleWork` and `staleWork2` agree on
the problem data, the settings and `x`, `z`, `z_prev`, `u`, and differ in the
recorded primal residual only; `residuals_check` returns `1` on the first and
`0` on the second. -/
theorem residuals_check_reads_info :
    staleWork.data = staleWork2.data ∧ staleWork.settings = staleWork2.settings ∧
    staleWork.x = staleWork2.x ∧ staleWork.z = staleWork2.z ∧
    staleWork.z_prev = staleWork2.z_prev ∧ staleWork.u = staleWork2.u ∧
    residuals_check sqrtQ staleWork = 1 ∧ residuals_check sqrtQ staleWork2 = 0 := by
  refine ⟨rfl, rfl, rfl, rfl, rfl, rfl, residuals_check_staleWork, ?_⟩
  rw [residuals_check_eq_zero]
  have h : eps_pri sqrtQ staleWork2 = 1 := eps_pri_staleWork
  rw [h]
  simp [staleWork2]

/-- C2, amended. For two workspaces that agree on problem data, settings and
`x`, `z`, `z_prev`, `u`: `compute_pri_res`, `compute_dua_res` and
`compute_obj_val` return the same on both, whatever the information records
hold, and `update_info` leaves the same workspace; `residuals_check` reads
the recorded `pri_res` and `dua_res` and nothing else of the record, so it
returns the same on both as soon as these two recorded values agree (`iter`
and `obj_val` may differ). -/
theorem info_record_independence (c_sqrt : F → F) (w1 w2 : Work F)
    (hdata : w1.data = w2.data) (hset : w1.settings = w2.settings)
    (hx : w1.x = w2.x) (hz : w1.z = w2.z) (hzp : w1.z_prev = w2.z_prev) (hu : w1.u = w2.u) :
    compute_pri_res c_sqrt w1 = compute_pri_res c_sqrt w2 ∧
    compute_dua_res c_sqrt w1 = compute_dua_res c_sqrt w2 ∧
    (∀ p, compute_obj_val w1.data p = compute_obj_val w2.data p) ∧
    (∀ iter, update_info c_sqrt w1 iter = update_info c_sqrt w2 iter) ∧
    (w1.info.pri_res = w2.info.pri_res → w1.info.dua_res = w2.info.dua_res →
      residuals_check c_sqrt w1 = residuals_check c_sqrt w2) := by
  obtain ⟨d1, s1, x1, z1, zp1, u1, i1⟩ := w1
  obtain ⟨d2, s2, x2, z2, zp2, u2, i2⟩ := w2
  simp only at hdata hset hx hz hzp hu
  subst hdata hset hx hz hzp hu
  refine ⟨rfl, rfl, fun _ => rfl, fun _ => rfl, ?_⟩
  intro hp hd
  simp only at hp hd
  simp only [residuals_check, eps_pri, eps_dua, hp, hd]

/-- Witness of the amended C2 on `staleWork` and `staleWork3`, which differ in the
recorded iteration count and objective value. -/
theorem info_record_independence_witness :
    residuals_check sqrtQ staleWork = residuals_check sqrtQ staleWork3 :=
  (info_record_independence sqrtQ staleWork staleWork3 rfl rfl rfl rfl rfl rfl).2.2.2.2 rfl rfl

/-- C3. Projection output bounds: when `lx[i] ≤ ux[i]` for every `i < n` and
`lA[j] ≤ uA[j]` for every `j < m`, then after `project_x`, whatever `x`,
`z_prev`, `u` and `alpha` are, `lx[i] ≤ z[i] ≤ ux[i]` for every `i < n` and
`lA[i-n] ≤ z[i] ≤ uA[i-n]` for every `n ≤ i < n+m`. -/
theorem project_x_bounds (w : Work F)
    (hx : ∀ i, i < w.data.n → w.data.lx i ≤ w.data.ux i)
    (hA : ∀ j, j < w.data.m → w.data.lA j ≤ w.data.uA j) :
    (∀ i, i < w.data.n →
      w.data.lx i ≤ (project_x w).z i ∧ (project_x w).z i ≤ w.data.ux i) ∧
    (∀ i, w.data.n ≤ i → i < w.data.n + w.data.m →
      w.data.lA (i - w.data.n) ≤ (project_x w).z i ∧
        (project_x w).z i ≤ w.data.uA (i - w.data.n)) := by
  rw [project_x_eq]
  constructor
  · intro i hi
    simp only [hi, if_true, c_min_eq_min, c_max_eq_max]
    exact ⟨le_min (le_max_right _ _) (hx i hi), min_le_right _ _⟩
  · intro i hni hi
    have h1 : ¬ i < w.data.n := by omega
    simp only [h1, hi, if_true, if_false, c_min_eq_min, c_max_eq_max]
    exact ⟨le_min (le_max_right _ _) (hA (i - w.data.n) (by omega)), min_le_right _ _⟩

/-- Witness of C3 on `exWork`: the slack entry `z[1]`, computed from the relaxed
value `4 + 7 = 11`, lies in `[-1, 5]`. -/
theorem project_x_bounds_witness :
    exWork.data.lA (1 - exWork.data.n) ≤ (project_x exWork).z 1 ∧
      (project_x exWork).z 1 ≤ exWork.data.uA (1 - exWork.data.n) :=
  (project_x_bounds exWork
    (by intro i hi
        have h0 : i = 0 := by simpa [exWork] using hi
        subst h0
        simp [exWork, vecOf])
    (by intro j hj
        have h0 : j = 0 := by simpa [exWork] using hj
        subst h0
        norm_num [exWork, vecOf])).2 1 (by simp [exWork]) (by simp [exWork])

/-- C4. `project_x` sets `z[i] = min(max(alpha*x[i] + (1-alpha)*z_prev[i] + u[i],
lx[i]), ux[i])` for every `i < n` and `z[i] = min(max(alpha*x[i] +
(1-alpha)*z_prev[i] + u[i], lA[i-n]), uA[i-n])` for every `n ≤ i < n+m`, with
`x`, `z_prev`, `u` the values on entry: the slack block is clamped against the
constraint bounds at offset `i-n`. -/
theorem project_x_formula (w : Work F) :
    (∀ i, i < w.data.n →
      (project_x w).z i =
        min (max (w.settings.alpha * w.x i + (1 - w.settings.alpha) * w.z_prev i + w.u i)
          (w.data.lx i)) (w.data.ux i)) ∧
    (∀ i, w.data.n ≤ i → i < w.data.n + w.data.m →
      (project_x w).z i =
        min (max (w.settings.alpha * w.x i + (1 - w.settings.alpha) * w.z_prev i + w.u i)
          (w.data.lA (i - w.data.n))) (w.data.uA (i - w.data.n))) := by
  rw [project_x_eq]
  constructor
  · intro i hi
    simp only [hi, if_true, c_min_eq_min, c_max_eq_max]
  · intro i hni hi
    have h1 : ¬ i < w.data.n := by omega
    simp only [h1, hi, if_true, if_false, c_min_eq_min, c_max_eq_max]

/-- Witness of C4 on `exWork`: the slack entry is `min(max(1*4 + 0*1 + 7, -1), 5) = 5`,
clamped against `uA[0] = 5` and not against `ux`. -/
theorem project_x_formula_witness : (project_x exWork).z 1 = 5 := by
  have h := (project_x_formula exWork).2 1 (by simp [exWork]) (by simp [exWork])
  rw [h]
  simp [exWork, vecOf]
  norm_num

/-- C5. `compute_rhs` overwrites `x` so that `x[i] = rho*(z[i] - u[i]) - q[i]` for
every `i < n` and `x[i] = z[i] - u[i]` for every `n ≤ i < n+m` (no `rho`, no
`q` on the slack block), for all `n`, `m`; in particular for `n = 1`, `m = 0`,
`q = [2]`, `rho = 1`, `z = [3]`, `u = [1]` the result is `x = [0]`. -/
theorem compute_rhs_formula (w : Work F) :
    (∀ i, i < w.data.n →
      (compute_rhs w).x i = w.settings.rho * (w.z i - w.u i) - w.data.q i) ∧
    (∀ i, w.data.n ≤ i → i < w.data.n + w.data.m →
      (compute_rhs w).x i = w.z i - w.u i) ∧
    (w.data.n = 1 → w.data.m = 0 → w.data.q 0 = 2 → w.settings.rho = 1 →
      w.z 0 = 3 → w.u 0 = 1 → (compute_rhs w).x 0 = 0) := by
  rw [compute_rhs_eq]
  refine ⟨?_, ?_, ?_⟩
  · intro i hi
    simp only [hi, if_true]
  · intro i hni hi
    have h1 : ¬ i < w.data.n := by omega
    simp only [h1, hi, if_true, if_false]
  · intro hn _ hq hrho hz hu
    have h1 : 0 < w.data.n := by omega
    simp only [h1, if_true, hq, hrho, hz, hu]
    norm_num

/-- The example of the specification for `compute_rhs`: `n = 1`, `m = 0`,
`q = [2]`, `rho = 1`, `z = [3]`, `u = [1]`. -/
theorem compute_rhs_formula_witness :
    (compute_rhs
      ({ staleWork with
          data := { staleWork.data with q := vecOf [2] },
          z := vecOf [3], u := vecOf [1] } : Work ℚ)).x 0 = 0 :=
  (compute_rhs_formula _).2.2 rfl rfl (by simp [vecOf]) rfl (by simp [vecOf]) (by simp [vecOf])

/-- C6. `update_u` adds to `u`: for every `i < n+m`,
`u_after[i] = u_before[i] + alpha*x[i] + (1-alpha)*z_prev[i] - z[i]`, without
clamping; for `alpha = 1` this is `u_before[i] + x[i] - z[i]` and for
`alpha = 0` it is `u_before[i] + z_prev[i] - z[i]`. -/
theorem update_u_formula (w : Work F) :
    (∀ i, i < w.data.n + w.data.m →
      (update_u w).u i =
        w.u i + w.settings.alpha * w.x i + (1 - w.settings.alpha) * w.z_prev i - w.z i) ∧
    (w.settings.alpha = 1 → ∀ i, i < w.data.n + w.data.m →
      (update_u w).u i = w.u i + w.x i - w.z i) ∧
    (w.settings.alpha = 0 → ∀ i, i < w.data.n + w.data.m →
      (update_u w).u i = w.u i + w.z_prev i - w.z i) := by
  rw [update_u_eq]
  refine ⟨?_, ?_, ?_⟩
  · intro i hi
    simp only [hi, if_true]
    ring
  · intro ha i hi
    simp only [hi, if_true, ha]
    ring
  · intro ha i hi
    simp only [hi, if_true, ha]
    ring

/-- Witness of C6 on `exWork` (`alpha = 1`): `u[1]` goes from `7` to
`7 + 4 - 2 = 9`. -/
theorem update_u_formula_witness : (update_u exWork).u 1 = 9 := by
  have h := (update_u_formula exWork).2.1 rfl 1 (by simp [exWork])
  rw [h]
  norm_num [exWork, vecOf]

/-- C7. `update_x` overwrites only the slack segment of `x`: for `rho ≠ 0` and every
`n ≤ i < n+m`, `x_after[i] = (1/rho)*x_before[i] + z[i] - u[i]`; for every
`i < n`, `x_after[i] = x_before[i]`; and when `m = 0` the whole state is
unchanged. -/
theorem update_x_formula (w : Work F) :
    (w.settings.rho ≠ 0 → ∀ i, w.data.n ≤ i → i < w.data.n + w.data.m →
      (update_x w).x i = (1 / w.settings.rho) * w.x i + w.z i - w.u i) ∧
    (∀ i, i < w.data.n → (update_x w).x i = w.x i) ∧
    (w.data.m = 0 → update_x w = w) := by
  rw [update_x_eq]
  refine ⟨?_, ?_, ?_⟩
  · intro _ i hni hi
    simp only [hni, hi, and_self, if_true]
  · intro i hi
    have h1 : ¬ (w.data.n ≤ i ∧ i < w.data.n + w.data.m) := by omega
    simp only [h1, if_false]
  · intro hm
    have h1 : ∀ j, ¬ (w.data.n ≤ j ∧ j < w.data.n + w.data.m) := by
      intro j; omega
    simp only [h1, if_false]

/-- Witness of C7 on `exWork` (`rho = 2`): the slack entry `x[1]` goes from `4` to
`(1/2)*4 + 2 - 7 = -3`. -/
theorem update_x_formula_witness : (update_x exWork).x 1 = -3 := by
  have h := (update_x_formula exWork).1 (by norm_num [exWork]) 1
    (by simp [exWork]) (by simp [exWork])
  rw [h]
  norm_num [exWork, vecOf]

/-- C8. Cold start: for all `n`, `m` and every prior state, after `cold_start` every
entry of `x`, `z` and `u` at an index `i < n+m` is `0`, and the problem data
and the settings are unchanged. -/
theorem cold_start_zero (w : Work F) :
    (∀ i, i < w.data.n + w.data.m →
      (cold_start w).x i = 0 ∧ (cold_start w).z i = 0 ∧ (cold_start w).u i = 0) ∧
    (cold_start w).data = w.data ∧ (cold_start w).settings = w.settings := by
  refine ⟨?_, rfl, rfl⟩
  intro i hi
  simp [cold_start, memset_zero, hi]

/-- Witness of C8 on `exWork`: the entries at index `1 < 2` are zero afterwards. -/
theorem cold_start_zero_witness :
    (cold_start exWork).x 1 = 0 ∧ (cold_start exWork).z 1 = 0 ∧ (cold_start exWork).u 1 = 0 :=
  (cold_start_zero exWork).1 1 (by simp [exWork])

/-- Stationary point in exact arithmetic: when `x = z = z_prev` on all `n+m`
entries then, for every `alpha`, `rho` and `u`, the primal and the dual
residual are `0` and the unrounded `update_u` leaves the workspace unchanged. -/
theorem stationary_point_exact (c_sqrt : F → F) (hsqrt : c_sqrt 0 = 0) (w : Work F)
    (hxz : ∀ i, i < w.data.n + w.data.m → w.x i = w.z i)
    (hzp : ∀ i, i < w.data.n + w.data.m → w.z i = w.z_prev i) :
    compute_pri_res c_sqrt w = 0 ∧ compute_dua_res c_sqrt w = 0 ∧
      (update_u w).u = w.u ∧ update_u w = w := by
  have hu : (update_u w).u = w.u := by
    rw [update_u_eq]
    funext j
    by_cases hj : j < w.data.n + w.data.m
    · simp only [hj, if_true, hxz j hj, ← hzp j hj]
      ring
    · simp only [hj, if_false]
  refine ⟨?_, ?_, hu, ?_⟩
  · have h0 : ∑ i in Finset.range w.data.n, (w.x i - w.z i) * (w.x i - w.z i) = 0 := by
      apply Finset.sum_eq_zero
      intro i hi
      have hi2 : i < w.data.n + w.data.m := by
        have := Finset.mem_range.mp hi
        omega
      simp [hxz i hi2]
    simp only [compute_pri_res, vec_norm2_diff, h0, hsqrt]
  · have h0 : ∑ i in Finset.range w.data.n,
        (w.settings.rho * (w.z i - w.z_prev i)) * (w.settings.rho * (w.z i - w.z_prev i))
          = 0 := by
      apply Finset.sum_eq_zero
      intro i hi
      have hi2 : i < w.data.n + w.data.m := by
        have := Finset.mem_range.mp hi
        omega
      simp [← hzp i hi2]
    rw [compute_dua_res_eq, h0, hsqrt]
  · rw [update_u_eq] at hu ⊢
    simp only at hu
    rw [hu]

/-- C10. With `eps_abs = 0` and `eps_rel = 0` both tolerances are `0`, for every `x`,
`z`, `u`, `rho`, `n` and `m`; the check then returns `0` for every recorded
residual that is not negative (zero included, the comparison being strict),
and `update_info` followed by `residuals_check` returns `0` for every state.
The square root is only asked not to be negative on arguments that are not
negative. -/
theorem zero_tolerance_never_converges (c_sqrt : F → F)
    (hsqrt : ∀ a, 0 ≤ a → 0 ≤ c_sqrt a) (w : Work F)
    (habs : w.settings.eps_abs = 0) (hrel : w.settings.eps_rel = 0) :
    eps_pri c_sqrt w = 0 ∧ eps_dua c_sqrt w = 0 ∧
    (0 ≤ w.info.pri_res ∨ 0 ≤ w.info.dua_res → residuals_check c_sqrt w = 0) ∧
    (∀ iter, residuals_check c_sqrt (update_info c_sqrt w iter) = 0) := by
  have hp : eps_pri c_sqrt w = 0 := by simp [eps_pri, habs, hrel]
  have hd : eps_dua c_sqrt w = 0 := by simp [eps_dua, habs, hrel]
  refine ⟨hp, hd, ?_, ?_⟩
  · intro h
    rw [residuals_check_eq_zero, hp, hd]
    rintro ⟨h1, h2⟩
    rcases h with h | h
    · exact absurd h1 (not_lt.mpr h)
    · exact absurd h2 (not_lt.mpr h)
  · intro iter
    rw [residuals_check_eq_zero, eps_pri_update_info, update_info_pri_res, hp]
    rintro ⟨h1, _⟩
    have h0 : 0 ≤ compute_pri_res c_sqrt w :=
      hsqrt _ (sum_mul_self_nonneg (fun i => w.x i - w.z i) w.data.n)
    exact absurd h1 (not_lt.mpr h0)

/-- Witness of C10 on `zeroTolWork`. -/
theorem zero_tolerance_never_converges_witness :
    eps_pri sqrtQ zeroTolWork = 0 ∧ eps_dua sqrtQ zeroTolWork = 0 ∧
    (0 ≤ zeroTolWork.info.pri_res ∨ 0 ≤ zeroTolWork.info.dua_res →
      residuals_check sqrtQ zeroTolWork = 0) ∧
    (∀ iter, residuals_check sqrtQ (update_info sqrtQ zeroTolWork iter) = 0) :=
  zero_tolerance_never_converges sqrtQ (fun a _ => sqrtQ_nonneg a) zeroTolWork rfl rfl

end Claims

/-! ## Residual norms -/

section Norms

variable {F : Type} [LinearOrderedField F]

theorem sum_range_congr (f g : Nat → F) (l : Nat) (h : ∀ i, i < l → f i = g i) :
    ∑ i in Finset.range l, f i = ∑ i in Finset.range l, g i :=
  Finset.sum_congr rfl (fun i hi => h i (Finset.mem_range.mp hi))

theorem sum_mul_self_eq_zero_iff (f : Nat → F) (l : Nat) :
    ∑ i in Finset.range l, f i * f i = 0 ↔ ∀ i, i < l → f i = 0 := by
  rw [Finset.sum_eq_zero_iff_of_nonneg (fun i _ => mul_self_nonneg (f i))]
  constructor
  · intro h i hi
    exact mul_self_eq_zero.mp (h i (Finset.mem_range.mpr hi))
  · intro h i hi
    rw [h i (Finset.mem_range.mp hi), mul_zero]

theorem sqrt_scale (c_sqrt : F → F) (hnn : ∀ a, 0 ≤ a → 0 ≤ c_sqrt a)
    (hsq : ∀ a, 0 ≤ a → c_sqrt a * c_sqrt a = a) (r s : F) (hs : 0 ≤ s) :
    c_sqrt (r * r * s) = |r| * c_sqrt s := by
  have h1 : 0 ≤ r * r * s := mul_nonneg (mul_self_nonneg r) hs
  have h2 : 0 ≤ |r| * c_sqrt s := mul_nonneg (abs_nonneg r) (hnn s hs)
  rw [← mul_self_inj (hnn _ h1) h2, hsq _ h1]
  calc r * r * s = |r| * |r| * (c_sqrt s * c_sqrt s) := by rw [abs_mul_abs_self, hsq s hs]
    _ = |r| * c_sqrt s * (|r| * c_sqrt s) := by ring

/-- The dual residual in exact arithmetic with an exact square root: the unrounded
`compute_dua_res` is the square root of the sum over `i < n` of
`(rho*(z[i] - z_prev[i]))^2`, is not negative, equals `|rho|` times the norm
of `z[0..n) - z_prev[0..n)`, and reads the entries below `n` only. -/
theorem compute_dua_res_norm_exact (c_sqrt : F → F)
    (hnn : ∀ a, 0 ≤ a → 0 ≤ c_sqrt a)
    (hsq : ∀ a, 0 ≤ a → c_sqrt a * c_sqrt a = a) (w : Work F) :
    compute_dua_res c_sqrt w =
      c_sqrt (∑ i in Finset.range w.data.n, (w.settings.rho * (w.z i - w.z_prev i)) ^ 2) ∧
    0 ≤ compute_dua_res c_sqrt w ∧
    compute_dua_res c_sqrt w =
      |w.settings.rho| * c_sqrt (∑ i in Finset.range w.data.n, (w.z i - w.z_prev i) ^ 2) ∧
    (∀ w2 : Work F, w2.data.n = w.data.n → w2.settings.rho = w.settings.rho →
      (∀ i, i < w.data.n → w2.z i = w.z i) →
      (∀ i, i < w.data.n → w2.z_prev i = w.z_prev i) →
      compute_dua_res c_sqrt w2 = compute_dua_res c_sqrt w) := by
  refine ⟨?_, ?_, ?_, ?_⟩
  · simp only [compute_dua_res_eq, sq]
  · rw [compute_dua_res_eq]
    exact hnn _ (sum_mul_self_nonneg _ _)
  · have hs : 0 ≤ ∑ i in Finset.range w.data.n, (w.z i - w.z_prev i) ^ 2 :=
      Finset.sum_nonneg (fun i _ => sq_nonneg _)
    rw [compute_dua_res_eq, ← sqrt_scale c_sqrt hnn hsq _ _ hs, Finset.mul_sum]
    congr 1
    apply Finset.sum_congr rfl
    intro i _
    ring
  · intro w2 hn hrho hz hzp
    rw [compute_dua_res_eq, compute_dua_res_eq, hn, hrho]
    congr 1
    apply sum_range_congr
    intro i hi
    rw [hz i hi, hzp i hi]

/-- C12. `compute_pri_res` returns the Euclidean norm of `x[0..n) - z[0..n)`; it is
the same on every workspace with the same `n` and the same entries of `x`
and `z` below `n`, so the entries in `[n, n+m)` do not matter; and it is `0`
exactly when `x[i] = z[i]` for every `i < n`. The parameter `c_sqrt` is
assumed to vanish, on non-negative arguments, at `0` only. -/
theorem compute_pri_res_norm (c_sqrt : F → F)
    (hzero : ∀ a, 0 ≤ a → (c_sqrt a = 0 ↔ a = 0)) (w : Work F) :
    compute_pri_res c_sqrt w =
      c_sqrt (∑ i in Finset.range w.data.n, (w.x i - w.z i) ^ 2) ∧
    (∀ w2 : Work F, w2.data.n = w.data.n →
      (∀ i, i < w.data.n → w2.x i = w.x i) →
      (∀ i, i < w.data.n → w2.z i = w.z i) →
      compute_pri_res c_sqrt w2 = compute_pri_res c_sqrt w) ∧
    (compute_pri_res c_sqrt w = 0 ↔ ∀ i, i < w.data.n → w.x i = w.z i) := by
  refine ⟨?_, ?_, ?_⟩
  · simp only [compute_pri_res, vec_norm2_diff, sq]
  · intro w2 hn hx hz
    simp only [compute_pri_res, vec_norm2_diff, hn]
    congr 1
    apply sum_range_congr
    intro i hi
    rw [hx i hi, hz i hi]
  · simp only [compute_pri_res, vec_norm2_diff]
    rw [hzero _ (sum_mul_self_nonneg _ _), sum_mul_self_eq_zero_iff]
    constructor
    · intro h i hi
      exact sub_eq_zero.mp (h i hi)
    · intro h i hi
      exact sub_eq_zero.mpr (h i hi)

/-- Witness of C12 on `fieldWork ℝ` with the real square root: `x[0] = 5` and
`z[0] = 2` differ, so the primal residual is not `0`. -/
theorem compute_pri_res_norm_witness : compute_pri_res Real.sqrt (fieldWork ℝ) ≠ 0 := by
  intro h0
  have h := ((compute_pri_res_norm Real.sqrt (fun a ha => Real.sqrt_eq_zero ha)
    (fieldWork ℝ)).2.2.mp h0) 0 (by simp [fieldWork])
  simp [fieldWork] at h

end Norms

/-! ## Objective, information record and frames -/

section Frames

variable {F : Type} [LinearOrderedField F]

theorem quad_form_congr (P : csc F) (a b : Vec F) (h : ∀ i, i < P.n → a i = b i) :
    quad_form P a = quad_form P b := by
  unfold quad_form
  apply sum_range_congr
  intro i hi
  apply sum_range_congr
  intro j hj
  rw [h i hi, h j hj]

theorem quad_form_zero (P : csc F) (a : Vec F)
    (h : ∀ i j, i < P.n → j < P.n → P.entry i j = 0) : quad_form P a = 0 := by
  unfold quad_form
  apply Finset.sum_eq_zero
  intro i hi
  apply Finset.sum_eq_zero
  intro j hj
  rw [h i j (Finset.mem_range.mp hi) (Finset.mem_range.mp hj)]
  ring

/-- C13. `compute_obj_val` returns the quadratic form of `P` at the point plus the
dot product of `q` and the point over `n` entries, as a value (it has no
workspace to write to); when every entry of the quadratic term is zero it
returns the sum over `i < n` of `q[i]*point[i]`, so for `n = 2`, `q = [1,1]`,
`point = [3,4]` it returns `7`. -/
theorem compute_obj_val_formula (d : Data F) (p : Vec F) :
    compute_obj_val d p =
      (∑ i in Finset.range d.P.n, ∑ j in Finset.range d.P.n, p i * d.P.entry i j * p j) +
        ∑ i in Finset.range d.n, d.q i * p i ∧
    ((∀ i j, i < d.P.n → j < d.P.n → d.P.entry i j = 0) →
      compute_obj_val d p = ∑ i in Finset.range d.n, d.q i * p i) ∧
    ((∀ i j, i < d.P.n → j < d.P.n → d.P.entry i j = 0) →
      d.n = 2 → d.q 0 = 1 → d.q 1 = 1 → p 0 = 3 → p 1 = 4 → compute_obj_val d p = 7) := by
  refine ⟨rfl, ?_, ?_⟩
  · intro hP
    simp only [compute_obj_val, quad_form_zero d.P p hP, vec_prod, zero_add]
  · intro hP hn hq0 hq1 hp0 hp1
    simp only [compute_obj_val, quad_form_zero d.P p hP, vec_prod, zero_add, hn,
      Finset.sum_range_succ, Finset.sum_range_zero, hq0, hq1, hp0, hp1]
    norm_num

/-- The example of the specification for `compute_obj_val`: `n = 2`, `q = [1,1]`,
zero quadratic term, `point = [3,4]`. -/
theorem compute_obj_val_formula_witness : compute_obj_val objData (vecOf [3, 4]) = 7 :=
  (compute_obj_val_formula objData (vecOf [3, 4])).2.2 (fun _ _ _ _ => rfl) rfl
    (by simp [objData, vecOf]) (by simp [objData, vecOf]) (by simp [vecOf]) (by simp [vecOf])

/-- C14. `update_info(work, iter)` sets `info.iter = iter`, `info.obj_val` to the
objective at `z`, `info.pri_res = compute_pri_res(work)` and
`info.dua_res = compute_dua_res(work)`, and leaves `x`, `z`, `z_prev`, `u`,
the problem data and the settings unchanged. With a quadratic term of
dimension at most `n` the recorded objective reads `z[0..n)` only: it is the
same for every `z` with the same entries below `n`. -/
theorem update_info_record (c_sqrt : F → F) (w : Work F) (iter : Int) :
    (update_info c_sqrt w iter).info.iter = iter ∧
    (update_info c_sqrt w iter).info.obj_val = compute_obj_val w.data w.z ∧
    (update_info c_sqrt w iter).info.pri_res = compute_pri_res c_sqrt w ∧
    (update_info c_sqrt w iter).info.dua_res = compute_dua_res c_sqrt w ∧
    (update_info c_sqrt w iter).x = w.x ∧ (update_info c_sqrt w iter).z = w.z ∧
    (update_info c_sqrt w iter).z_prev = w.z_prev ∧ (update_info c_sqrt w iter).u = w.u ∧
    (update_info c_sqrt w iter).data = w.data ∧
    (update_info c_sqrt w iter).settings = w.settings ∧
    (w.data.P.n ≤ w.data.n → ∀ z2 : Vec F, (∀ i, i < w.data.n → z2 i = w.z i) →
      (update_info c_sqrt { w with z := z2 } iter).info.obj_val =
        (update_info c_sqrt w iter).info.obj_val) := by
  refine ⟨rfl, rfl, rfl, rfl, rfl, rfl, rfl, rfl, rfl, rfl, ?_⟩
  intro hP z2 hz
  show compute_obj_val w.data z2 = compute_obj_val w.data w.z
  unfold compute_obj_val vec_prod
  rw [quad_form_congr w.data.P z2 w.z (fun i hi => hz i (by omega))]
  congr 1
  apply sum_range_congr
  intro i hi
  rw [hz i hi]

/-- Witness of C14 on `exWork` (`n = 1`, quadratic term of dimension `1`): changing
the slack entry `z[1]` from `2` to `99` does not change the recorded
objective. -/
theorem update_info_record_witness :
    (update_info sqrtQ { exWork with z := vecOf [1, 99] } 4).info.obj_val =
      (update_info sqrtQ exWork 4).info.obj_val :=
  (update_info_record sqrtQ exWork 4).2.2.2.2.2.2.2.2.2.2 (by simp [exWork]) (vecOf [1, 99])
    (by intro i hi
        have h0 : i = 0 := by simpa [exWork] using hi
        subst h0
        simp [exWork, vecOf])

/-- C15. Each step writes only its own vector of the iteration state: `compute_rhs`
and `update_x` leave `z`, `z_prev`, `u` unchanged, `project_x` leaves `x`,
`z_prev`, `u` unchanged, `update_u` leaves `x`, `z`, `z_prev` unchanged,
`cold_start` leaves `z_prev` unchanged, and none of them changes the problem
data, the settings or the information record. -/
theorem step_frames (w : Work F) :
    ((compute_rhs w).z = w.z ∧ (compute_rhs w).z_prev = w.z_prev ∧ (compute_rhs w).u = w.u ∧
      (compute_rhs w).data = w.data ∧ (compute_rhs w).settings = w.settings ∧
      (compute_rhs w).info = w.info) ∧
    ((update_x w).z = w.z ∧ (update_x w).z_prev = w.z_prev ∧ (update_x w).u = w.u ∧
      (update_x w).data = w.data ∧ (update_x w).settings = w.settings ∧
      (update_x w).info = w.info) ∧
    ((project_x w).x = w.x ∧ (project_x w).z_prev = w.z_prev ∧ (project_x w).u = w.u ∧
      (project_x w).data = w.data ∧ (project_x w).settings = w.settings ∧
      (project_x w).info = w.info) ∧
    ((update_u w).x = w.x ∧ (update_u w).z = w.z ∧ (update_u w).z_prev = w.z_prev ∧
      (update_u w).data = w.data ∧ (update_u w).settings = w.settings ∧
      (update_u w).info = w.info) ∧
    ((cold_start w).z_prev = w.z_prev ∧ (cold_start w).data = w.data ∧
      (cold_start w).settings = w.settings ∧ (cold_start w).info = w.info) := by
  rw [compute_rhs_eq, update_x_eq, project_x_eq, update_u_eq]
  exact ⟨⟨rfl, rfl, rfl, rfl, rfl, rfl⟩, ⟨rfl, rfl, rfl, rfl, rfl, rfl⟩,
    ⟨rfl, rfl, rfl, rfl, rfl, rfl⟩, ⟨rfl, rfl, rfl, rfl, rfl, rfl⟩, ⟨rfl, rfl, rfl, rfl⟩⟩

end Frames

/-! ## Order of the per-index updates -/

section OrderLemmas

variable {F : Type} [LinearOrderedField F]

theorem runInOrder_range {σ : Type} (body : σ → Nat → σ) (lo k : Nat) (s : σ) :
    runInOrder body (List.range' lo k) s = forLoop lo (lo + k) body s := by
  simp [runInOrder, forLoop]

theorem runInOrder_perm {σ : Type} (body : σ → Nat → σ)
    (hcomm : ∀ s i j, body (body s i) j = body (body s j) i)
    (l1 l2 : List Nat) (hp : l1.Perm l2) (s : σ) :
    runInOrder body l1 s = runInOrder body l2 s :=
  List.Perm.foldl_eq' hp (fun i _ j _ z => hcomm z i j) s

theorem update_x_body_comm (w : Work F) (i j : Nat) :
    update_x_body (update_x_body w i) j = update_x_body (update_x_body w j) i := by
  by_cases h : i = j
  · subst h; rfl
  · simp only [update_x_body, Function.update_noteq h, Function.update_noteq (Ne.symm h)]
    rw [Function.update_comm h]

theorem update_u_body_comm (w : Work F) (i j : Nat) :
    update_u_body (update_u_body w i) j = update_u_body (update_u_body w j) i := by
  by_cases h : i = j
  · subst h; rfl
  · simp only [update_u_body, Function.update_noteq h, Function.update_noteq (Ne.symm h)]
    rw [Function.update_comm h]

theorem compute_rhs_index_comm (w : Work F) (i j : Nat) :
    compute_rhs_index (compute_rhs_index w i) j =
      compute_rhs_index (compute_rhs_index w j) i := by
  by_cases h : i = j
  · subst h; rfl
  · by_cases hi : i < w.data.n <;> by_cases hj : j < w.data.n <;>
      simp only [compute_rhs_index, compute_rhs_body1, compute_rhs_body2, hi, hj, if_true,
        if_false] <;>
      rw [Function.update_comm h]

theorem project_x_index_comm (w : Work F) (i j : Nat) :
    project_x_index (project_x_index w i) j =
      project_x_index (project_x_index w j) i := by
  by_cases h : i = j
  · subst h; rfl
  · by_cases hi : i < w.data.n <;> by_cases hj : j < w.data.n <;>
      simp only [project_x_index, project_x_body1, project_x_body2, hi, hj, if_true,
        if_false] <;>
      rw [Function.update_comm h]

theorem compute_rhs_index_loop (w : Work F) (k : Nat) :
    forLoop 0 (0 + k) compute_rhs_index w =
      { w with
        x := fun j =>
          if j < k then
            (if j < w.data.n then w.settings.rho * (w.z j - w.u j) - w.data.q j
              else w.z j - w.u j)
          else w.x j } := by
  induction k with
  | zero => simp [forLoop_empty]
  | succ k ih =>
    rw [forLoop_step, ih]
    by_cases hk : k < w.data.n <;>
      simp only [compute_rhs_index, compute_rhs_body1, compute_rhs_body2, Nat.zero_add, hk,
        if_true, if_false] <;>
      congr 1 <;>
      funext j <;>
      by_cases hj : j = k
    · subst hj; simp [hk]
    · have : (j < k + 1) = (j < k) := by apply propext; omega
      simp [Function.update_noteq hj, this]
    · subst hj; simp [hk]
    · have : (j < k + 1) = (j < k) := by apply propext; omega
      simp [Function.update_noteq hj, this]

theorem project_x_index_loop (w : Work F) (k : Nat) :
    forLoop 0 (0 + k) project_x_index w =
      { w with
        z := fun j =>
          if j < k then
            (if j < w.data.n then
              c_min (c_max (w.settings.alpha * w.x j + (1 - w.settings.alpha) * w.z_prev j
                + w.u j) (w.data.lx j)) (w.data.ux j)
            else
              c_min (c_max (w.settings.alpha * w.x j + (1 - w.settings.alpha) * w.z_prev j
                + w.u j) (w.data.lA (j - w.data.n))) (w.data.uA (j - w.data.n)))
          else w.z j } := by
  induction k with
  | zero => simp [forLoop_empty]
  | succ k ih =>
    rw [forLoop_step, ih]
    by_cases hk : k < w.data.n <;>
      simp only [project_x_index, project_x_body1, project_x_body2, Nat.zero_add, hk,
        if_true, if_false] <;>
      congr 1 <;>
      funext j <;>
      by_cases hj : j = k
    · subst hj; simp [hk]
    · have : (j < k + 1) = (j < k) := by apply propext; omega
      simp [Function.update_noteq hj, this]
    · subst hj; simp [hk]
    · have : (j < k + 1) = (j < k) := by apply propext; omega
      simp [Function.update_noteq hj, this]

theorem compute_rhs_index_range (w : Work F) :
    runInOrder compute_rhs_index (List.range' 0 (w.data.n + w.data.m)) w = compute_rhs w := by
  rw [runInOrder_range, compute_rhs_index_loop, compute_rhs_eq]
  congr 1
  funext j
  by_cases h1 : j < w.data.n
  · have h2 : j < w.data.n + w.data.m := by omega
    simp [h1, h2]
  · by_cases h2 : j < w.data.n + w.data.m <;> simp [h1, h2]

theorem project_x_index_range (w : Work F) :
    runInOrder project_x_index (List.range' 0 (w.data.n + w.data.m)) w = project_x w := by
  rw [runInOrder_range, project_x_index_loop, project_x_eq]
  congr 1
  funext j
  by_cases h1 : j < w.data.n
  · have h2 : j < w.data.n + w.data.m := by omega
    simp [h1, h2]
  · by_cases h2 : j < w.data.n + w.data.m <;> simp [h1, h2]

theorem update_x_body_range (w : Work F) :
    runInOrder update_x_body (List.range' w.data.n w.data.m) w = update_x w := by
  rw [runInOrder_range]
  rfl

theorem update_u_body_range (w : Work F) :
    runInOrder update_u_body (List.range' 0 (w.data.n + w.data.m)) w = update_u w := by
  rw [runInOrder_range, Nat.zero_add]
  rfl

/-- C16. Element-wise independence. Executing the per-index updates of
`compute_rhs`, `update_x`, `project_x` or `update_u` in any order (`order` a
permutation of the index range of the operation) gives the same workspace as
the sequential loops; and the value each operation leaves at index `i` is the
same for two workspaces that agree on the dimensions, the settings and the
index-`i` entries of the operands. -/
theorem order_independence (w : Work F) (order : List Nat) :
    (order.Perm (List.range' 0 (w.data.n + w.data.m)) →
      runInOrder compute_rhs_index order w = compute_rhs w) ∧
    (order.Perm (List.range' w.data.n w.data.m) →
      runInOrder update_x_body order w = update_x w) ∧
    (order.Perm (List.range' 0 (w.data.n + w.data.m)) →
      runInOrder project_x_index order w = project_x w) ∧
    (order.Perm (List.range' 0 (w.data.n + w.data.m)) →
      runInOrder update_u_body order w = update_u w) ∧
    (∀ (w2 : Work F) (i : Nat), agreeAt w w2 i →
      (compute_rhs w2).x i = (compute_rhs w).x i ∧ (update_x w2).x i = (update_x w).x i ∧
      (project_x w2).z i = (project_x w).z i ∧ (update_u w2).u i = (update_u w).u i) := by
  refine ⟨?_, ?_, ?_, ?_, ?_⟩
  · intro hp
    rw [runInOrder_perm compute_rhs_index compute_rhs_index_comm _ _ hp, compute_rhs_index_range]
  · intro hp
    rw [runInOrder_perm update_x_body update_x_body_comm _ _ hp, update_x_body_range]
  · intro hp
    rw [runInOrder_perm project_x_index project_x_index_comm _ _ hp, project_x_index_range]
  · intro hp
    rw [runInOrder_perm update_u_body update_u_body_comm _ _ hp, update_u_body_range]
  · rintro w2 i ⟨hn, hm, hs, hx, hz, hzp, hu, hq, hlx, hux, hlA, huA⟩
    rw [compute_rhs_eq, compute_rhs_eq, update_x_eq, update_x_eq, project_x_eq, project_x_eq,
      update_u_eq, update_u_eq]
    simp only [hn, hm, hs, hx, hz, hzp, hu, hq, hlx, hux, hlA, huA, and_self]

/-- Witness of C16 on `exWork`: the dual update at index `1` first and at index `0`
second gives the workspace of the sequential loop. -/
theorem order_independence_witness :
    runInOrder update_u_body [1, 0] exWork = update_u exWork :=
  (order_independence exWork [1, 0]).2.2.2.1 (List.Perm.swap 0 1 [])

end OrderLemmas

/-! ## Projection and dual update, stored residuals, tolerances -/

section Behaviour

variable {F : Type} [LinearOrderedField F]

theorem project_x_z_clamp (w : Work F) (i : Nat) (hi : i < w.data.n + w.data.m) :
    (project_x w).z i = min (max (relaxedAt w i) (lowerAt w i)) (upperAt w i) := by
  rw [project_x_eq]
  by_cases h : i < w.data.n
  · simp only [relaxedAt, lowerAt, upperAt, c_min_eq_min, c_max_eq_max, h, if_true]
  · simp only [relaxedAt, lowerAt, upperAt, c_min_eq_min, c_max_eq_max, h, hi, if_true,
      if_false]

theorem update_u_project_x_u (w : Work F) (i : Nat) (hi : i < w.data.n + w.data.m) :
    (update_u (project_x w)).u i = relaxedAt w i - (project_x w).z i := by
  rw [update_u_eq]
  have hd : (project_x w).data = w.data := by rw [project_x_eq]
  have hs : (project_x w).settings = w.settings := by rw [project_x_eq]
  have hx : (project_x w).x = w.x := by rw [project_x_eq]
  have hzp : (project_x w).z_prev = w.z_prev := by rw [project_x_eq]
  have hu : (project_x w).u = w.u := by rw [project_x_eq]
  simp only [hd, hs, hx, hzp, hu, hi, if_true, relaxedAt]
  ring

theorem update_u_project_x_z (w : Work F) :
    (update_u (project_x w)).z = (project_x w).z := by
  rw [update_u_eq]

/-- Projection followed by dual update in exact arithmetic: with
`v[i] = alpha*x[i] + (1-alpha)*z_prev[i] + u_before[i]`, the unrounded
`project_x` then `update_u` give `z[i] + u_after[i] = v[i]` at every
`i < n+m`, and for `lower[i] ≤ upper[i]` the three sign cases. -/
theorem projection_remainder_exact (w : Work F) (i : Nat) (hi : i < w.data.n + w.data.m) :
    (update_u (project_x w)).z i + (update_u (project_x w)).u i = relaxedAt w i ∧
    (update_u (project_x w)).u i =
      relaxedAt w i - min (max (relaxedAt w i) (lowerAt w i)) (upperAt w i) ∧
    (lowerAt w i ≤ upperAt w i →
      (0 < (update_u (project_x w)).u i → (update_u (project_x w)).z i = upperAt w i) ∧
      ((update_u (project_x w)).u i < 0 → (update_u (project_x w)).z i = lowerAt w i) ∧
      (lowerAt w i < (update_u (project_x w)).z i →
        (update_u (project_x w)).z i < upperAt w i → (update_u (project_x w)).u i = 0)) := by
  rw [update_u_project_x_z, update_u_project_x_u w i hi, project_x_z_clamp w i hi]
  refine ⟨by ring, rfl, ?_⟩
  intro hlu
  refine ⟨?_, ?_, ?_⟩
  · intro hpos
    rcases le_total (max (relaxedAt w i) (lowerAt w i)) (upperAt w i) with h | h
    · rw [min_eq_left h] at hpos
      have := le_max_left (relaxedAt w i) (lowerAt w i)
      linarith
    · exact min_eq_right h
  · intro hneg
    have h1 : min (max (relaxedAt w i) (lowerAt w i)) (upperAt w i) ≤
        max (relaxedAt w i) (lowerAt w i) := min_le_left _ _
    have h2 : relaxedAt w i < lowerAt w i := by
      by_contra hc
      rw [max_eq_left (not_lt.mp hc)] at h1 hneg
      linarith
    rw [max_eq_right (le_of_lt h2), min_eq_left hlu]
  · intro hlo hup
    have h1 : max (relaxedAt w i) (lowerAt w i) < upperAt w i := by
      by_contra hc
      rw [min_eq_right (not_lt.mp hc)] at hup
      exact lt_irrefl _ hup
    rw [min_eq_left (le_of_lt h1)] at hlo ⊢
    have h2 : lowerAt w i < relaxedAt w i := by
      by_contra hc
      rw [max_eq_right (not_lt.mp hc)] at hlo
      exact lt_irrefl _ hlo
    rw [max_eq_left (le_of_lt h2)]
    ring

/-- C18. `residuals_check` compares the residuals stored in the information record,
not freshly computed ones: it returns `1` if and only if
`info.pri_res < eps_pri` and `info.dua_res < eps_dua` (the two locals of the
function), and `0` otherwise; right after `update_info` on the same state the
result is `1` if and only if `compute_pri_res(work) < eps_pri` and
`compute_dua_res(work) < eps_dua`. The function has no store through `work`,
which is why it is embedded as a function to the exit flag alone. -/
theorem residuals_check_stored (c_sqrt : F → F) (w : Work F) :
    (residuals_check c_sqrt w = 1 ↔
      (w.info.pri_res < eps_pri c_sqrt w ∧ w.info.dua_res < eps_dua c_sqrt w)) ∧
    (residuals_check c_sqrt w = 1 ∨ residuals_check c_sqrt w = 0) ∧
    (∀ iter, residuals_check c_sqrt (update_info c_sqrt w iter) = 1 ↔
      (compute_pri_res c_sqrt w < eps_pri c_sqrt w ∧
        compute_dua_res c_sqrt w < eps_dua c_sqrt w)) := by
  refine ⟨residuals_check_eq_one c_sqrt w, ?_, ?_⟩
  · by_cases h : w.info.pri_res < eps_pri c_sqrt w ∧ w.info.dua_res < eps_dua c_sqrt w
    · exact Or.inl ((residuals_check_eq_one c_sqrt w).mpr h)
    · exact Or.inr ((residuals_check_eq_zero c_sqrt w).mpr h)
  · intro iter
    rw [residuals_check_eq_one, eps_pri_update_info, eps_dua_update_info,
      update_info_pri_res, update_info_dua_res]

/-- C19. Crossed bounds: `project_x` is total and, where the lower bound exceeds the
upper bound, returns the upper bound: for `i < n` with `lx[i] > ux[i]`,
`z[i] = ux[i]`; for `n ≤ i < n+m` with `lA[i-n] > uA[i-n]`, `z[i] = uA[i-n]`,
whatever `x`, `z_prev`, `u` and `alpha` are; and in every case `z[i]` is at
most its upper bound. -/
theorem project_x_crossed_bounds (w : Work F) :
    (∀ i, i < w.data.n → w.data.lx i > w.data.ux i → (project_x w).z i = w.data.ux i) ∧
    (∀ i, w.data.n ≤ i → i < w.data.n + w.data.m →
      w.data.lA (i - w.data.n) > w.data.uA (i - w.data.n) →
      (project_x w).z i = w.data.uA (i - w.data.n)) ∧
    (∀ i, i < w.data.n → (project_x w).z i ≤ w.data.ux i) ∧
    (∀ i, w.data.n ≤ i → i < w.data.n + w.data.m →
      (project_x w).z i ≤ w.data.uA (i - w.data.n)) := by
  rw [project_x_eq]
  refine ⟨?_, ?_, ?_, ?_⟩
  · intro i hi hcross
    simp only [hi, if_true, c_min_eq_min, c_max_eq_max]
    exact min_eq_right (le_trans (le_of_lt hcross) (le_max_right _ _))
  · intro i hni hi hcross
    have h1 : ¬ i < w.data.n := by omega
    simp only [h1, hi, if_true, if_false, c_min_eq_min, c_max_eq_max]
    exact min_eq_right (le_trans (le_of_lt hcross) (le_max_right _ _))
  · intro i hi
    simp only [hi, if_true, c_min_eq_min]
    exact min_le_right _ _
  · intro i hni hi
    have h1 : ¬ i < w.data.n := by omega
    simp only [h1, hi, if_true, if_false, c_min_eq_min]
    exact min_le_right _ _

/-- Witness of C19 on `crossedWork`, where `lx[0] = 3 > ux[0] = 1`: the projected
`z[0]` is the upper bound `1`. -/
theorem project_x_crossed_bounds_witness : (project_x crossedWork).z 0 = 1 := by
  have h := (project_x_crossed_bounds crossedWork).1 0 (by simp [crossedWork, exWork])
    (by norm_num [crossedWork, exWork, vecOf])
  rw [h]
  simp [crossedWork, vecOf]

/-- C20. The convergence check is monotone in the tolerances: for a fixed state and
fixed recorded residuals with `rho ≥ 0`, if `residuals_check` returns `1`
under `(eps_abs, eps_rel)` then it returns `1` under every
`(eps_abs2, eps_rel2)` with `eps_abs2 ≥ eps_abs` and `eps_rel2 ≥ eps_rel`
(the signs of the tolerances play no part). The square root is only asked
not to be negative on arguments that are not negative. -/
theorem residuals_check_monotone (c_sqrt : F → F)
    (hnn : ∀ a, 0 ≤ a → 0 ≤ c_sqrt a) (w : Work F) (eps_abs2 eps_rel2 : F)
    (hrho : 0 ≤ w.settings.rho)
    (habs : w.settings.eps_abs ≤ eps_abs2) (hrel : w.settings.eps_rel ≤ eps_rel2)
    (h1 : residuals_check c_sqrt w = 1) :
    residuals_check c_sqrt (withTolerances w eps_abs2 eps_rel2) = 1 := by
  rw [residuals_check_eq_one] at h1 ⊢
  have hdim : 0 ≤ c_sqrt ((w.data.n + w.data.m : Nat) : F) := hnn _ (Nat.cast_nonneg _)
  have hx : 0 ≤ vec_norm2 c_sqrt w.x (w.data.n + w.data.m) :=
    hnn _ (sum_mul_self_nonneg _ _)
  have hu : 0 ≤ vec_norm2 c_sqrt w.u (w.data.n + w.data.m) :=
    hnn _ (sum_mul_self_nonneg _ _)
  have hmax : 0 ≤ c_max (vec_norm2 c_sqrt w.x (w.data.n + w.data.m))
      (vec_norm2 c_sqrt w.z (w.data.n + w.data.m)) := by
    rw [c_max_eq_max]
    exact le_max_of_le_left hx
  have hp : eps_pri c_sqrt w ≤ eps_pri c_sqrt (withTolerances w eps_abs2 eps_rel2) := by
    simp only [eps_pri, withTolerances]
    exact add_le_add (mul_le_mul_of_nonneg_left habs hdim)
      (mul_le_mul_of_nonneg_right hrel hmax)
  have hd : eps_dua c_sqrt w ≤ eps_dua c_sqrt (withTolerances w eps_abs2 eps_rel2) := by
    simp only [eps_dua, withTolerances]
    exact add_le_add (mul_le_mul_of_nonneg_left habs hdim)
      (mul_le_mul_of_nonneg_right (mul_le_mul_of_nonneg_right hrel hrho) hu)
  exact ⟨lt_of_lt_of_le h1.1 hp, lt_of_lt_of_le h1.2 hd⟩

/-- Witness of C20 on `staleWork` (`eps_abs = 1`, `eps_rel = 0`, check `1`): the
check is still `1` with `eps_abs = 2`, `eps_rel = 1`. -/
theorem residuals_check_monotone_witness :
    residuals_check sqrtQ (withTolerances staleWork 2 1) = 1 :=
  residuals_check_monotone sqrtQ (fun a _ => sqrtQ_nonneg a) staleWork 2 1
    (by norm_num [staleWork]) (by norm_num [staleWork]) (by norm_num [staleWork])
    residuals_check_staleWork

end Behaviour

/-! ## Rounding to binary64 -/

section Binary64

theorem roundHalfEven_cases (s : ℚ) :
    (roundHalfEven s = ⌊s⌋ ∧ (s - ⌊s⌋ < 1 / 2 ∨ (s - ⌊s⌋ = 1 / 2 ∧ ⌊s⌋ % 2 = 0))) ∨
    (roundHalfEven s = ⌊s⌋ + 1 ∧ (1 / 2 < s - ⌊s⌋ ∨ (s - ⌊s⌋ = 1 / 2 ∧ ⌊s⌋ % 2 = 1))) := by
  unfold roundHalfEven
  by_cases h1 : s - ⌊s⌋ < 1 / 2
  · left
    rw [if_pos h1]
    exact ⟨rfl, Or.inl h1⟩
  · by_cases h2 : 1 / 2 < s - ⌊s⌋
    · right
      rw [if_neg h1, if_pos h2]
      exact ⟨rfl, Or.inl h2⟩
    · have h3 : s - ⌊s⌋ = 1 / 2 := le_antisymm (not_lt.mp h2) (not_lt.mp h1)
      by_cases h4 : ⌊s⌋ % 2 = 0
      · left
        rw [if_neg h1, if_neg h2, if_pos h4]
        exact ⟨rfl, Or.inr ⟨h3, h4⟩⟩
      · right
        rw [if_neg h1, if_neg h2, if_neg h4]
        refine ⟨rfl, Or.inr ⟨h3, ?_⟩⟩
        omega

theorem roundHalfEven_eq (s : ℚ) (m : ℤ)
    (h : ((m : ℚ) - 1 / 2 < s ∧ s < m + 1 / 2) ∨
      (s = m + 1 / 2 ∧ m % 2 = 0) ∨ (s = m - 1 / 2 ∧ m % 2 = 0)) :
    roundHalfEven s = m := by
  rcases h with ⟨h1, h2⟩ | ⟨h1, h2⟩ | ⟨h1, h2⟩
  · by_cases hs : (m : ℚ) ≤ s
    · have hf : ⌊s⌋ = m := Int.floor_eq_iff.mpr ⟨hs, by linarith⟩
      unfold roundHalfEven
      rw [hf, if_pos (by linarith)]
    · have hs2 : s < m := not_le.mp hs
      have hf : ⌊s⌋ = m - 1 := Int.floor_eq_iff.mpr ⟨by push_cast; linarith, by push_cast; linarith⟩
      unfold roundHalfEven
      rw [hf]
      have h3 : ¬ (s - ((m - 1 : ℤ) : ℚ) < 1 / 2) := by push_cast; linarith
      have h4 : 1 / 2 < s - ((m - 1 : ℤ) : ℚ) := by push_cast; linarith
      rw [if_neg h3, if_pos h4]
      ring
  · have hf : ⌊s⌋ = m := Int.floor_eq_iff.mpr ⟨by linarith, by linarith⟩
    unfold roundHalfEven
    rw [hf]
    have h3 : ¬ (s - (m : ℚ) < 1 / 2) := by linarith
    have h4 : ¬ (1 / 2 < s - (m : ℚ)) := by linarith
    rw [if_neg h3, if_neg h4, if_pos h2]
  · have hf : ⌊s⌋ = m - 1 := Int.floor_eq_iff.mpr ⟨by push_cast; linarith, by push_cast; linarith⟩
    unfold roundHalfEven
    rw [hf]
    have h3 : ¬ (s - ((m - 1 : ℤ) : ℚ) < 1 / 2) := by push_cast; linarith
    have h4 : ¬ (1 / 2 < s - ((m - 1 : ℤ) : ℚ)) := by push_cast; linarith
    have h5 : ¬ ((m - 1) % 2 = 0) := by omega
    rw [if_neg h3, if_neg h4, if_neg h5]
    ring

theorem roundHalfEven_intCast (n : ℤ) : roundHalfEven (n : ℚ) = n :=
  roundHalfEven_eq _ n (Or.inl ⟨by linarith, by linarith⟩)

theorem roundHalfEven_mono (s t : ℚ) (h : s ≤ t) : roundHalfEven s ≤ roundHalfEven t := by
  have hfl : ⌊s⌋ ≤ ⌊t⌋ := Int.floor_mono h
  rcases roundHalfEven_cases s with ⟨hs, _⟩ | ⟨hs, hs2⟩
  · rcases roundHalfEven_cases t with ⟨ht, _⟩ | ⟨ht, _⟩ <;> rw [hs, ht] <;> omega
  · rcases roundHalfEven_cases t with ⟨ht, ht2⟩ | ⟨ht, _⟩
    · rw [hs, ht]
      by_contra hc
      have heq : ⌊s⌋ = ⌊t⌋ := by omega
      rw [← heq] at ht2
      rcases hs2 with hs2 | ⟨hs2, hs3⟩
      · rcases ht2 with ht2 | ⟨ht2, _⟩ <;> linarith
      · rcases ht2 with ht2 | ⟨_, ht3⟩
        · linarith
        · omega
    · rw [hs, ht]; omega

theorem roundHalfEven_neg (s : ℚ) : roundHalfEven (-s) = -roundHalfEven s := by
  rcases roundHalfEven_cases s with ⟨hs, hs2⟩ | ⟨hs, hs2⟩
  · rw [hs]
    apply roundHalfEven_eq
    have h0 := Int.floor_le s
    rcases hs2 with h | ⟨h, hp⟩
    · by_cases he : s - ⌊s⌋ = 0
      · left; push_cast; constructor <;> linarith
      · have : 0 < s - ⌊s⌋ := lt_of_le_of_ne (by linarith) (Ne.symm he)
        left; push_cast; constructor <;> linarith
    · right; right
      push_cast
      exact ⟨by linarith, by omega⟩
  · rw [hs]
    apply roundHalfEven_eq
    have h0 := Int.lt_floor_add_one s
    rcases hs2 with h | ⟨h, hp⟩
    · left; push_cast; constructor <;> linarith
    · right; left
      push_cast
      exact ⟨by linarith, by omega⟩

theorem ulp53_pos (q : ℚ) : 0 < ulp53 q := zpow_pos (by norm_num) _

theorem ulp53_neg (q : ℚ) : ulp53 (-q) = ulp53 q := by
  unfold ulp53
  rw [abs_neg]

theorem rnd53_neg (q : ℚ) : rnd53 (-q) = -rnd53 q := by
  unfold rnd53
  rw [ulp53_neg, neg_div, roundHalfEven_neg]
  push_cast
  ring

theorem rnd53_zero : rnd53 0 = 0 := by
  unfold rnd53
  rw [zero_div]
  have := roundHalfEven_intCast 0
  simp only [Int.cast_zero] at this
  rw [this]
  simp

theorem rnd53_nonneg (q : ℚ) (h : 0 ≤ q) : 0 ≤ rnd53 q := by
  unfold rnd53
  have h1 : (0 : ℚ) ≤ q / ulp53 q := div_nonneg h (le_of_lt (ulp53_pos q))
  have h2 := roundHalfEven_mono 0 _ h1
  have h3 := roundHalfEven_intCast 0
  simp only [Int.cast_zero] at h3
  rw [h3] at h2
  exact mul_nonneg (by exact_mod_cast h2) (le_of_lt (ulp53_pos q))

theorem two_zpow_pos (k : ℤ) : (0 : ℚ) < (2 : ℚ) ^ k := zpow_pos (by norm_num) _

theorem log2_spec (q : ℚ) (hq : 0 < q) :
    (2 : ℚ) ^ Int.log 2 q ≤ q ∧ q < (2 : ℚ) ^ (Int.log 2 q + 1) := by
  have h1 := Int.zpow_log_le_self (b := 2) (by norm_num) hq
  have h2 := Int.lt_zpow_succ_log_self (b := 2) (by norm_num) q
  exact ⟨by exact_mod_cast h1, by exact_mod_cast h2⟩

theorem log2_eq (q : ℚ) (e : ℤ) (h1 : (2 : ℚ) ^ e ≤ q) (h2 : q < (2 : ℚ) ^ (e + 1)) :
    Int.log 2 q = e := by
  have hq : 0 < q := lt_of_lt_of_le (two_zpow_pos e) h1
  have h3 : e ≤ Int.log 2 q :=
    (Int.zpow_le_iff_le_log (b := 2) (by norm_num) hq).mp (by exact_mod_cast h1)
  have h4 : Int.log 2 q < e + 1 :=
    (Int.lt_zpow_iff_log_lt (b := 2) (by norm_num) hq).mp (by exact_mod_cast h2)
  omega

theorem rnd53_mono_pos (a b : ℚ) (ha : 0 < a) (hab : a ≤ b) : rnd53 a ≤ rnd53 b := by
  have hb : 0 < b := lt_of_lt_of_le ha hab
  have hlog : Int.log 2 a ≤ Int.log 2 b := Int.log_mono_right ha hab
  obtain ⟨ka, hka⟩ : ∃ k, k = max (Int.log 2 a - 52) (-1074) := ⟨_, rfl⟩
  obtain ⟨kb, hkb⟩ : ∃ k, k = max (Int.log 2 b - 52) (-1074) := ⟨_, rfl⟩
  have hua : ulp53 a = (2 : ℚ) ^ ka := by rw [ulp53, abs_of_pos ha, hka]
  have hub : ulp53 b = (2 : ℚ) ^ kb := by rw [ulp53, abs_of_pos hb, hkb]
  have hkab : ka ≤ kb := by rw [hka, hkb]; exact max_le_max (by omega) le_rfl
  unfold rnd53
  rw [hua, hub]
  rcases eq_or_lt_of_le hkab with heq | hlt
  · rw [heq]
    have h1 : a / (2 : ℚ) ^ kb ≤ b / (2 : ℚ) ^ kb :=
      div_le_div_of_nonneg_right hab (le_of_lt (two_zpow_pos kb))
    have h2 := roundHalfEven_mono _ _ h1
    exact mul_le_mul_of_nonneg_right (by exact_mod_cast h2) (le_of_lt (two_zpow_pos kb))
  · -- different binades
    have hA : (roundHalfEven (a / (2 : ℚ) ^ ka) : ℚ) * (2 : ℚ) ^ ka ≤ (2 : ℚ) ^ (ka + 53) := by
      have h1 : a < (2 : ℚ) ^ (ka + 53) :=
        lt_of_lt_of_le (log2_spec a ha).2
          (zpow_le_zpow_right₀ (by norm_num) (by rw [hka]; have := le_max_left (Int.log 2 a - 52) (-1074); omega))
      have h2 : a / (2 : ℚ) ^ ka ≤ ((2 ^ 53 : ℤ) : ℚ) := by
        rw [div_le_iff₀ (two_zpow_pos ka)]
        have : (2 : ℚ) ^ (ka + 53) = ((2 ^ 53 : ℤ) : ℚ) * (2 : ℚ) ^ ka := by
          rw [zpow_add₀ (by norm_num), mul_comm]
          norm_num
        rw [← this]
        exact le_of_lt h1
      have h3 := roundHalfEven_mono _ _ h2
      rw [roundHalfEven_intCast] at h3
      have h4 : (roundHalfEven (a / (2 : ℚ) ^ ka) : ℚ) ≤ ((2 ^ 53 : ℤ) : ℚ) := by exact_mod_cast h3
      calc (roundHalfEven (a / (2 : ℚ) ^ ka) : ℚ) * (2 : ℚ) ^ ka
          ≤ ((2 ^ 53 : ℤ) : ℚ) * (2 : ℚ) ^ ka :=
            mul_le_mul_of_nonneg_right h4 (le_of_lt (two_zpow_pos ka))
        _ = (2 : ℚ) ^ (ka + 53) := by
            rw [zpow_add₀ (by norm_num), mul_comm]
            norm_num
    have hB : (2 : ℚ) ^ (kb + 52) ≤ (roundHalfEven (b / (2 : ℚ) ^ kb) : ℚ) * (2 : ℚ) ^ kb := by
      have hkb2 : kb = Int.log 2 b - 52 := by
        have h1074 : -1074 ≤ ka := by rw [hka]; exact le_max_right _ _
        rw [hkb]
        apply max_eq_left
        by_contra hc
        have : max (Int.log 2 b - 52) (-1074) = -1074 := max_eq_right (by omega)
        rw [this] at hkb
        omega
      have h1 : (2 : ℚ) ^ (kb + 52) ≤ b := by
        have : kb + 52 = Int.log 2 b := by omega
        rw [this]
        exact (log2_spec b hb).1
      have h2 : ((2 ^ 52 : ℤ) : ℚ) ≤ b / (2 : ℚ) ^ kb := by
        rw [le_div_iff₀ (two_zpow_pos kb)]
        have : (2 : ℚ) ^ (kb + 52) = ((2 ^ 52 : ℤ) : ℚ) * (2 : ℚ) ^ kb := by
          rw [zpow_add₀ (by norm_num), mul_comm]
          norm_num
        rw [← this]
        exact h1
      have h3 := roundHalfEven_mono _ _ h2
      rw [roundHalfEven_intCast] at h3
      have h4 : ((2 ^ 52 : ℤ) : ℚ) ≤ (roundHalfEven (b / (2 : ℚ) ^ kb) : ℚ) := by exact_mod_cast h3
      calc (2 : ℚ) ^ (kb + 52) = ((2 ^ 52 : ℤ) : ℚ) * (2 : ℚ) ^ kb := by
            rw [zpow_add₀ (by norm_num), mul_comm]
            norm_num
        _ ≤ (roundHalfEven (b / (2 : ℚ) ^ kb) : ℚ) * (2 : ℚ) ^ kb :=
            mul_le_mul_of_nonneg_right h4 (le_of_lt (two_zpow_pos kb))
    have hmid : (2 : ℚ) ^ (ka + 53) ≤ (2 : ℚ) ^ (kb + 52) :=
      zpow_le_zpow_right₀ (by norm_num) (by omega)
    exact le_trans hA (le_trans hmid hB)

theorem rnd53_mono (a b : ℚ) (hab : a ≤ b) : rnd53 a ≤ rnd53 b := by
  by_cases ha : 0 < a
  · exact rnd53_mono_pos a b ha hab
  · have ha2 : a ≤ 0 := not_lt.mp ha
    have hna : rnd53 a ≤ 0 := by
      have := rnd53_nonneg (-a) (by linarith)
      rw [rnd53_neg] at this
      linarith
    by_cases hb : 0 ≤ b
    · exact le_trans hna (rnd53_nonneg b hb)
    · have hb2 : b < 0 := not_le.mp hb
      have := rnd53_mono_pos (-b) (-a) (by linarith) (by linarith)
      rw [rnd53_neg, rnd53_neg] at this
      linarith

theorem rnd53_eval (q : ℚ) (e k m : ℤ) (h1 : (2 : ℚ) ^ e ≤ q) (h2 : q < (2 : ℚ) ^ (e + 1))
    (hk : k = max (e - 52) (-1074)) (hm : roundHalfEven (q / (2 : ℚ) ^ k) = m) :
    rnd53 q = (m : ℚ) * (2 : ℚ) ^ k := by
  have hq : 0 < q := lt_of_lt_of_le (two_zpow_pos e) h1
  unfold rnd53 ulp53
  rw [abs_of_pos hq, log2_eq q e h1 h2, ← hk, hm]

theorem sqrt53_zero : sqrt53 0 = 0 := by
  simp [sqrt53]

theorem sqrt53_nonneg (q : ℚ) : 0 ≤ sqrt53 q := by
  unfold sqrt53
  split_ifs
  · exact le_rfl
  · exact mul_nonneg (Nat.cast_nonneg _) (le_of_lt (two_zpow_pos _))

theorem sqrt53_eval_down (q : ℚ) (e k : ℤ) (N s : ℕ)
    (h1 : (2 : ℚ) ^ e ≤ q) (h2 : q < (2 : ℚ) ^ (e + 1)) (hk : k = e / 2 - 52)
    (hN1 : (N : ℚ) ≤ q / ((2 : ℚ) ^ k) ^ 2) (hN2 : q / ((2 : ℚ) ^ k) ^ 2 < (N : ℚ) + 1)
    (hs1 : s * s ≤ N) (hs2 : N < (s + 1) * (s + 1))
    (hlt : q / ((2 : ℚ) ^ k) ^ 2 < ((s : ℚ) + 1 / 2) ^ 2) :
    sqrt53 q = (s : ℚ) * (2 : ℚ) ^ k := by
  have hq : 0 < q := lt_of_lt_of_le (two_zpow_pos e) h1
  have ht : 0 ≤ q / ((2 : ℚ) ^ k) ^ 2 := le_trans (Nat.cast_nonneg N) hN1
  unfold sqrt53
  rw [if_neg (not_le.mpr hq)]
  simp only [log2_eq q e h1 h2, ← hk, (Nat.floor_eq_iff ht).mpr ⟨hN1, hN2⟩,
    ← Nat.eq_sqrt.mpr ⟨hs1, hs2⟩, if_pos hlt]

theorem sqrt53_eval_up (q : ℚ) (e k : ℤ) (N s : ℕ)
    (h1 : (2 : ℚ) ^ e ≤ q) (h2 : q < (2 : ℚ) ^ (e + 1)) (hk : k = e / 2 - 52)
    (hN1 : (N : ℚ) ≤ q / ((2 : ℚ) ^ k) ^ 2) (hN2 : q / ((2 : ℚ) ^ k) ^ 2 < (N : ℚ) + 1)
    (hs1 : s * s ≤ N) (hs2 : N < (s + 1) * (s + 1))
    (hgt : ((s : ℚ) + 1 / 2) ^ 2 < q / ((2 : ℚ) ^ k) ^ 2) :
    sqrt53 q = ((s + 1 : ℕ) : ℚ) * (2 : ℚ) ^ k := by
  have hq : 0 < q := lt_of_lt_of_le (two_zpow_pos e) h1
  have ht : 0 ≤ q / ((2 : ℚ) ^ k) ^ 2 := le_trans (Nat.cast_nonneg N) hN1
  unfold sqrt53
  rw [if_neg (not_le.mpr hq)]
  simp only [log2_eq q e h1 h2, ← hk, (Nat.floor_eq_iff ht).mpr ⟨hN1, hN2⟩,
    ← Nat.eq_sqrt.mpr ⟨hs1, hs2⟩, if_neg (not_lt.mpr (le_of_lt hgt)), if_pos hgt]

end Binary64

/-! ## Closed forms of the rounded operations -/

section RoundedLoops

variable {F : Type} [LinearOrderedField F]

theorem update_u_fl_loop (rnd : F → F) (w : Work F) (k : Nat) :
    forLoop 0 (0 + k) (update_u_body_fl rnd) w =
      { w with
        u := fun j => if j < k
          then rnd (w.u j + rnd (rnd (rnd (w.settings.alpha * w.x j) +
            rnd (rnd (1 - w.settings.alpha) * w.z_prev j)) - w.z j))
          else w.u j } := by
  induction k with
  | zero => simp [forLoop_empty]
  | succ k ih =>
    rw [forLoop_step, ih]
    simp only [update_u_body_fl, Nat.zero_add]
    congr 1
    funext j
    by_cases hj : j = k
    · subst hj; simp
    · have : (j < k + 1) = (j < k) := by apply propext; omega
      simp [Function.update_noteq hj, this]

theorem update_u_fl_eq (rnd : F → F) (w : Work F) :
    update_u_fl rnd w =
      { w with
        u := fun j => if j < w.data.n + w.data.m
          then rnd (w.u j + rnd (rnd (rnd (w.settings.alpha * w.x j) +
            rnd (rnd (1 - w.settings.alpha) * w.z_prev j)) - w.z j))
          else w.u j } := by
  have h1 := update_u_fl_loop rnd w (w.data.n + w.data.m)
  rw [Nat.zero_add] at h1
  simp only [update_u_fl, h1]

theorem project_x_fl_loop1 (rnd : F → F) (w : Work F) (k : Nat) :
    forLoop 0 (0 + k) (project_x_body1_fl rnd) w =
      { w with
        z := fun j => if j < k
          then c_min (c_max (relaxed_fl rnd w j) (w.data.lx j)) (w.data.ux j)
          else w.z j } := by
  induction k with
  | zero => simp [forLoop_empty]
  | succ k ih =>
    rw [forLoop_step, ih]
    simp only [project_x_body1_fl, relaxed_fl, Nat.zero_add]
    congr 1
    funext j
    by_cases hj : j = k
    · subst hj; simp
    · have : (j < k + 1) = (j < k) := by apply propext; omega
      simp [Function.update_noteq hj, this]

theorem project_x_fl_loop2 (rnd : F → F) (w : Work F) (lo k : Nat) :
    forLoop lo (lo + k) (project_x_body2_fl rnd) w =
      { w with
        z := fun j => if lo ≤ j ∧ j < lo + k
          then c_min (c_max (relaxed_fl rnd w j) (w.data.lA (j - w.data.n)))
            (w.data.uA (j - w.data.n))
          else w.z j } := by
  induction k with
  | zero =>
    have : ∀ j, ¬ (lo ≤ j ∧ j < lo) := by omega
    simp [forLoop_empty, this]
  | succ k ih =>
    rw [forLoop_step, ih]
    simp only [project_x_body2_fl, relaxed_fl]
    congr 1
    funext j
    by_cases hj : j = lo + k
    · subst hj; simp
    · have : (lo ≤ j ∧ j < lo + (k + 1)) = (lo ≤ j ∧ j < lo + k) := by apply propext; omega
      simp [Function.update_noteq hj, this]

theorem project_x_fl_eq (rnd : F → F) (w : Work F) :
    project_x_fl rnd w =
      { w with
        z := fun j =>
          if j < w.data.n + w.data.m
          then c_min (c_max (relaxed_fl rnd w j) (lowerAt w j)) (upperAt w j)
          else w.z j } := by
  have h1 := project_x_fl_loop1 rnd w w.data.n
  rw [Nat.zero_add] at h1
  simp only [project_x_fl, h1, project_x_fl_loop2]
  congr 1
  funext j
  by_cases hj : j < w.data.n
  · have h2 : ¬ (w.data.n ≤ j ∧ j < w.data.n + w.data.m) := by omega
    have h3 : j < w.data.n + w.data.m := by omega
    simp [hj, h2, h3, lowerAt, upperAt, relaxed_fl]
  · by_cases h3 : j < w.data.n + w.data.m
    · have h2 : w.data.n ≤ j ∧ j < w.data.n + w.data.m := ⟨by omega, h3⟩
      simp [hj, h2, h3, lowerAt, upperAt, relaxed_fl]
    · have h2 : ¬ (w.data.n ≤ j ∧ j < w.data.n + w.data.m) := by omega
      simp [hj, h2, h3]

theorem compute_dua_res_fl_loop (rnd : F → F) (w : Work F) (k : Nat) :
    forLoop 0 (0 + k) (compute_dua_res_body_fl rnd w) 0 = fl_sum rnd (dua_term_fl rnd w) k := by
  induction k with
  | zero => simp [forLoop_empty, fl_sum]
  | succ k ih =>
    rw [forLoop_step, ih]
    simp [compute_dua_res_body_fl, fl_sum, dua_term_fl]

theorem compute_dua_res_fl_eq (rnd c_sqrt : F → F) (w : Work F) :
    compute_dua_res_fl rnd c_sqrt w = c_sqrt (fl_sum rnd (dua_term_fl rnd w) w.data.n) := by
  have h1 := compute_dua_res_fl_loop rnd w w.data.n
  rw [Nat.zero_add] at h1
  simp only [compute_dua_res_fl, h1]

theorem fl_sum_congr (rnd : F → F) (f g : Nat → F) (k : Nat) (h : ∀ i, i < k → f i = g i) :
    fl_sum rnd f k = fl_sum rnd g k := by
  induction k with
  | zero => rfl
  | succ k ih =>
    simp only [fl_sum]
    rw [ih (fun i hi => h i (by omega)), h k (by omega)]

theorem fl_sum_zero (rnd : F → F) (h0 : rnd 0 = 0) (f : Nat → F) (k : Nat)
    (h : ∀ i, i < k → f i = 0) : fl_sum rnd f k = 0 := by
  induction k with
  | zero => rfl
  | succ k ih =>
    simp only [fl_sum]
    rw [ih (fun i hi => h i (by omega)), h k (by omega), add_zero, h0]

theorem fl_sum_nonneg (rnd : F → F) (hr : ∀ a, 0 ≤ a → 0 ≤ rnd a) (f : Nat → F) (k : Nat)
    (h : ∀ i, i < k → 0 ≤ f i) : 0 ≤ fl_sum rnd f k := by
  induction k with
  | zero => exact le_rfl
  | succ k ih =>
    simp only [fl_sum]
    exact hr _ (add_nonneg (ih (fun i hi => h i (by omega))) (h k (by omega)))

theorem update_u_fl_exact (rnd : F → F) (h : ∀ a, rnd a = a) (w : Work F) :
    update_u_fl rnd w = update_u w := by
  have hr : rnd = fun a => a := funext h
  subst hr
  rfl

theorem project_x_fl_exact (rnd : F → F) (h : ∀ a, rnd a = a) (w : Work F) :
    project_x_fl rnd w = project_x w := by
  have hr : rnd = fun a => a := funext h
  subst hr
  rfl

theorem compute_dua_res_fl_exact (rnd c_sqrt : F → F) (h : ∀ a, rnd a = a) (w : Work F) :
    compute_dua_res_fl rnd c_sqrt w = compute_dua_res c_sqrt w := by
  have hr : rnd = fun a => a := funext h
  subst hr
  rfl

theorem relaxed_fl_exact (rnd : F → F) (h : ∀ a, rnd a = a) (w : Work F) (i : Nat) :
    relaxed_fl rnd w i = relaxedAt w i := by
  simp only [relaxed_fl, relaxedAt, h]

theorem project_x_fl_z (rnd : F → F) (w : Work F) (i : Nat) (hi : i < w.data.n + w.data.m) :
    (project_x_fl rnd w).z i =
      min (max (relaxed_fl rnd w i) (lowerAt w i)) (upperAt w i) := by
  rw [project_x_fl_eq]
  simp only [hi, if_true, c_min_eq_min, c_max_eq_max]

theorem update_u_fl_project_x_fl_z (rnd : F → F) (w : Work F) :
    (update_u_fl rnd (project_x_fl rnd w)).z = (project_x_fl rnd w).z := by
  rw [update_u_fl_eq]

theorem update_u_fl_project_x_fl_u (rnd : F → F) (w : Work F) (i : Nat)
    (hi : i < w.data.n + w.data.m) :
    (update_u_fl rnd (project_x_fl rnd w)).u i =
      rnd (w.u i + rnd (rnd (rnd (w.settings.alpha * w.x i) +
        rnd (rnd (1 - w.settings.alpha) * w.z_prev i)) - (project_x_fl rnd w).z i)) := by
  rw [update_u_fl_eq]
  have hd : (project_x_fl rnd w).data = w.data := by rw [project_x_fl_eq]
  have hs : (project_x_fl rnd w).settings = w.settings := by rw [project_x_fl_eq]
  have hx : (project_x_fl rnd w).x = w.x := by rw [project_x_fl_eq]
  have hzp : (project_x_fl rnd w).z_prev = w.z_prev := by rw [project_x_fl_eq]
  have hu : (project_x_fl rnd w).u = w.u := by rw [project_x_fl_eq]
  simp only [hd, hs, hx, hzp, hu, hi, if_true]

end RoundedLoops

/-! ## Binary64 evaluations -/

section Evals

theorem rnd53_d01 : rnd53 (d01) = d01 := by
  have hq : (d01 : ℚ) = 3602879701896397 / 2 ^ 55 := by norm_num [d01, d02, d03]
  rw [hq, rnd53_eval (3602879701896397 / 2 ^ 55) (-4) (-56) 7205759403792794 (by norm_num) (by norm_num)
    (by norm_num) (roundHalfEven_eq _ _ (by norm_num))]
  norm_num [d01, d02, d03]

theorem rnd53_d02 : rnd53 (d02) = d02 := by
  have hq : (d02 : ℚ) = 3602879701896397 / 2 ^ 54 := by norm_num [d01, d02, d03]
  rw [hq, rnd53_eval (3602879701896397 / 2 ^ 54) (-3) (-55) 7205759403792794 (by norm_num) (by norm_num)
    (by norm_num) (roundHalfEven_eq _ _ (by norm_num))]
  norm_num [d01, d02, d03]

theorem rnd53_d03 : rnd53 (d03) = d03 := by
  have hq : (d03 : ℚ) = 5404319552844595 / 2 ^ 54 := by norm_num [d01, d02, d03]
  rw [hq, rnd53_eval (5404319552844595 / 2 ^ 54) (-2) (-54) 5404319552844595 (by norm_num) (by norm_num)
    (by norm_num) (roundHalfEven_eq _ _ (by norm_num))]
  norm_num [d01, d02, d03]

theorem rnd53_one : rnd53 (1) = 1 := by
  have hq : (1 : ℚ) = 1 := by norm_num [d01, d02, d03]
  rw [hq, rnd53_eval (1) 0 (-52) 4503599627370496 (by norm_num) (by norm_num)
    (by norm_num) (roundHalfEven_eq _ _ (by norm_num))]
  norm_num [d01, d02, d03]

theorem rnd53_quarter : rnd53 (1 / 4) = 1 / 4 := by
  have hq : (1 / 4 : ℚ) = 1 / 2 ^ 2 := by norm_num [d01, d02, d03]
  rw [hq, rnd53_eval (1 / 2 ^ 2) (-2) (-54) 4503599627370496 (by norm_num) (by norm_num)
    (by norm_num) (roundHalfEven_eq _ _ (by norm_num))]
  norm_num [d01, d02, d03]

theorem rnd53_three_halves : rnd53 (3 / 2) = 3 / 2 := by
  have hq : (3 / 2 : ℚ) = 3 / 2 ^ 1 := by norm_num [d01, d02, d03]
  rw [hq, rnd53_eval (3 / 2 ^ 1) 0 (-52) 6755399441055744 (by norm_num) (by norm_num)
    (by norm_num) (roundHalfEven_eq _ _ (by norm_num))]
  norm_num [d01, d02, d03]

theorem stationary64_t1 : rnd53 (3 / 2 * d01) = 1351079888211149 / 2 ^ 53 := by
  have hq : (3 / 2 * d01 : ℚ) = 10808639105689191 / 2 ^ 56 := by norm_num [d01, d02, d03]
  rw [hq, rnd53_eval (10808639105689191 / 2 ^ 56) (-3) (-55) 5404319552844596 (by norm_num) (by norm_num)
    (by norm_num) (roundHalfEven_eq _ _ (by norm_num))]
  norm_num [d01, d02, d03]

theorem stationary64_t2 : rnd53 (1 - 3 / 2) = -(1 / 2 ^ 1) := by
  have hq : (1 - 3 / 2 : ℚ) = -(1 / 2 ^ 1) := by norm_num [d01, d02, d03]
  rw [hq, rnd53_neg, rnd53_eval (1 / 2 ^ 1) (-1) (-53) 4503599627370496 (by norm_num) (by norm_num)
    (by norm_num) (roundHalfEven_eq _ _ (by norm_num))]
  norm_num [d01, d02, d03]

theorem stationary64_t3 : rnd53 (-(1 / 2 ^ 1) * d01) = -(3602879701896397 / 2 ^ 56) := by
  have hq : (-(1 / 2 ^ 1) * d01 : ℚ) = -(3602879701896397 / 2 ^ 56) := by norm_num [d01, d02, d03]
  rw [hq, rnd53_neg, rnd53_eval (3602879701896397 / 2 ^ 56) (-5) (-57) 7205759403792794 (by norm_num) (by norm_num)
    (by norm_num) (roundHalfEven_eq _ _ (by norm_num))]
  norm_num [d01, d02, d03]

theorem stationary64_t4 : rnd53 (1351079888211149 / 2 ^ 53 + -(3602879701896397 / 2 ^ 56)) = 7205759403792795 / 2 ^ 56 := by
  have hq : (1351079888211149 / 2 ^ 53 + -(3602879701896397 / 2 ^ 56) : ℚ) = 7205759403792795 / 2 ^ 56 := by norm_num [d01, d02, d03]
  rw [hq, rnd53_eval (7205759403792795 / 2 ^ 56) (-4) (-56) 7205759403792795 (by norm_num) (by norm_num)
    (by norm_num) (roundHalfEven_eq _ _ (by norm_num))]
  norm_num [d01, d02, d03]

theorem stationary64_t5 : rnd53 (7205759403792795 / 2 ^ 56 - d01) = 1 / 2 ^ 56 := by
  have hq : (7205759403792795 / 2 ^ 56 - d01 : ℚ) = 1 / 2 ^ 56 := by norm_num [d01, d02, d03]
  rw [hq, rnd53_eval (1 / 2 ^ 56) (-56) (-108) 4503599627370496 (by norm_num) (by norm_num)
    (by norm_num) (roundHalfEven_eq _ _ (by norm_num))]
  norm_num [d01, d02, d03]

theorem stationary64_t6 : rnd53 (0 + 1 / 2 ^ 56) = 1 / 2 ^ 56 := by
  have hq : (0 + 1 / 2 ^ 56 : ℚ) = 1 / 2 ^ 56 := by norm_num [d01, d02, d03]
  rw [hq, rnd53_eval (1 / 2 ^ 56) (-56) (-108) 4503599627370496 (by norm_num) (by norm_num)
    (by norm_num) (roundHalfEven_eq _ _ (by norm_num))]
  norm_num [d01, d02, d03]

theorem interior64_v : rnd53 (d01 + d02) = 1351079888211149 / 2 ^ 52 := by
  have hq : (d01 + d02 : ℚ) = 10808639105689191 / 2 ^ 55 := by norm_num [d01, d02, d03]
  rw [hq, rnd53_eval (10808639105689191 / 2 ^ 55) (-2) (-54) 5404319552844596 (by norm_num) (by norm_num)
    (by norm_num) (roundHalfEven_eq _ _ (by norm_num))]
  norm_num [d01, d02, d03]

theorem interior64_inc : rnd53 (d01 - 1351079888211149 / 2 ^ 52) = -(7205759403792795 / 2 ^ 55) := by
  have hq : (d01 - 1351079888211149 / 2 ^ 52 : ℚ) = -(7205759403792795 / 2 ^ 55) := by norm_num [d01, d02, d03]
  rw [hq, rnd53_neg, rnd53_eval (7205759403792795 / 2 ^ 55) (-3) (-55) 7205759403792795 (by norm_num) (by norm_num)
    (by norm_num) (roundHalfEven_eq _ _ (by norm_num))]
  norm_num [d01, d02, d03]

theorem interior64_u : rnd53 (d02 + -(7205759403792795 / 2 ^ 55)) = -(1 / 2 ^ 55) := by
  have hq : (d02 + -(7205759403792795 / 2 ^ 55) : ℚ) = -(1 / 2 ^ 55) := by norm_num [d01, d02, d03]
  rw [hq, rnd53_neg, rnd53_eval (1 / 2 ^ 55) (-55) (-107) 4503599627370496 (by norm_num) (by norm_num)
    (by norm_num) (roundHalfEven_eq _ _ (by norm_num))]
  norm_num [d01, d02, d03]

theorem clamped64_inc : rnd53 (d01 - 1 / 4) = -(5404319552844595 / 2 ^ 55) := by
  have hq : (d01 - 1 / 4 : ℚ) = -(5404319552844595 / 2 ^ 55) := by norm_num [d01, d02, d03]
  rw [hq, rnd53_neg, rnd53_eval (5404319552844595 / 2 ^ 55) (-3) (-55) 5404319552844595 (by norm_num) (by norm_num)
    (by norm_num) (roundHalfEven_eq _ _ (by norm_num))]
  norm_num [d01, d02, d03]

theorem clamped64_u : rnd53 (d02 + -(5404319552844595 / 2 ^ 55)) = 1801439850948199 / 2 ^ 55 := by
  have hq : (d02 + -(5404319552844595 / 2 ^ 55) : ℚ) = 1801439850948199 / 2 ^ 55 := by norm_num [d01, d02, d03]
  rw [hq, rnd53_eval (1801439850948199 / 2 ^ 55) (-5) (-57) 7205759403792796 (by norm_num) (by norm_num)
    (by norm_num) (roundHalfEven_eq _ _ (by norm_num))]
  norm_num [d01, d02, d03]

theorem scaled64_t0 : rnd53 (d01 * d01) = 1441151880758559 / 2 ^ 57 := by
  have hq : (d01 * d01 : ℚ) = 12980742146337070512478121581609 / 2 ^ 110 := by norm_num [d01, d02, d03]
  rw [hq, rnd53_eval (12980742146337070512478121581609 / 2 ^ 110) (-7) (-59) 5764607523034236 (by norm_num) (by norm_num)
    (by norm_num) (roundHalfEven_eq _ _ (by norm_num))]
  norm_num [d01, d02, d03]

theorem scaled64_t1 : rnd53 (d01 * d03) = 1080863910568919 / 2 ^ 55 := by
  have hq : (d01 * d03 : ℚ) = 19471113219505603967277331424215 / 2 ^ 109 := by norm_num [d01, d02, d03]
  rw [hq, rnd53_eval (19471113219505603967277331424215 / 2 ^ 109) (-6) (-58) 8646911284551352 (by norm_num) (by norm_num)
    (by norm_num) (roundHalfEven_eq _ _ (by norm_num))]
  norm_num [d01, d02, d03]

theorem scaled64_sq0 : rnd53 (1441151880758559 / 2 ^ 57 * (1441151880758559 / 2 ^ 57)) = 461168601842739 / 2 ^ 62 := by
  have hq : (1441151880758559 / 2 ^ 57 * (1441151880758559 / 2 ^ 57) : ℚ) = 2076918743413931858457251756481 / 2 ^ 114 := by norm_num [d01, d02, d03]
  rw [hq, rnd53_eval (2076918743413931858457251756481 / 2 ^ 114) (-14) (-66) 7378697629483824 (by norm_num) (by norm_num)
    (by norm_num) (roundHalfEven_eq _ _ (by norm_num))]
  norm_num [d01, d02, d03]

theorem scaled64_sq1 : rnd53 (1080863910568919 / 2 ^ 55 * (1080863910568919 / 2 ^ 55)) = 4150517416584649 / 2 ^ 62 := by
  have hq : (1080863910568919 / 2 ^ 55 * (1080863910568919 / 2 ^ 55) : ℚ) = 1168266793170336129950248828561 / 2 ^ 110 := by norm_num [d01, d02, d03]
  rw [hq, rnd53_eval (1168266793170336129950248828561 / 2 ^ 110) (-11) (-63) 8301034833169298 (by norm_num) (by norm_num)
    (by norm_num) (roundHalfEven_eq _ _ (by norm_num))]
  norm_num [d01, d02, d03]

theorem scaled64_acc1 : rnd53 (0 + 461168601842739 / 2 ^ 62) = 461168601842739 / 2 ^ 62 := by
  have hq : (0 + 461168601842739 / 2 ^ 62 : ℚ) = 461168601842739 / 2 ^ 62 := by norm_num [d01, d02, d03]
  rw [hq, rnd53_eval (461168601842739 / 2 ^ 62) (-14) (-66) 7378697629483824 (by norm_num) (by norm_num)
    (by norm_num) (roundHalfEven_eq _ _ (by norm_num))]
  norm_num [d01, d02, d03]

theorem scaled64_acc2 : rnd53 (461168601842739 / 2 ^ 62 + 4150517416584649 / 2 ^ 62) = 1152921504606847 / 2 ^ 60 := by
  have hq : (461168601842739 / 2 ^ 62 + 4150517416584649 / 2 ^ 62 : ℚ) = 1152921504606847 / 2 ^ 60 := by norm_num [d01, d02, d03]
  rw [hq, rnd53_eval (1152921504606847 / 2 ^ 60) (-10) (-62) 4611686018427388 (by norm_num) (by norm_num)
    (by norm_num) (roundHalfEven_eq _ _ (by norm_num))]
  norm_num [d01, d02, d03]

theorem scaled64_sqrt : sqrt53 (1152921504606847 / 2 ^ 60) = 2278661198716217 / 2 ^ 56 := by
  have hq : (1152921504606847 / 2 ^ 60 : ℚ) = 1152921504606847 / 2 ^ 60 := by norm_num [d01, d02, d03]
  rw [hq, sqrt53_eval_down (1152921504606847 / 2 ^ 60) (-10) (-57) 20769187434139310946467549544448 4557322397432434 (by norm_num) (by norm_num)
    (by norm_num) (by norm_num) (by norm_num) (by norm_num) (by norm_num) (by norm_num)]
  norm_num [d01, d02, d03]

theorem scaled64_dd1 : rnd53 (d03 * d03) = 3242591731706757 / 2 ^ 55 := by
  have hq : (d03 * d03 : ℚ) = 29206669829258403248756220714025 / 2 ^ 108 := by norm_num [d01, d02, d03]
  rw [hq, rnd53_eval (29206669829258403248756220714025 / 2 ^ 108) (-4) (-56) 6485183463413514 (by norm_num) (by norm_num)
    (by norm_num) (roundHalfEven_eq _ _ (by norm_num))]
  norm_num [d01, d02, d03]

theorem scaled64_acc1_norm : rnd53 (0 + 1441151880758559 / 2 ^ 57) = 1441151880758559 / 2 ^ 57 := by
  have hq : (0 + 1441151880758559 / 2 ^ 57 : ℚ) = 1441151880758559 / 2 ^ 57 := by norm_num [d01, d02, d03]
  rw [hq, rnd53_eval (1441151880758559 / 2 ^ 57) (-7) (-59) 5764607523034236 (by norm_num) (by norm_num)
    (by norm_num) (roundHalfEven_eq _ _ (by norm_num))]
  norm_num [d01, d02, d03]

theorem scaled64_nacc2 : rnd53 (1441151880758559 / 2 ^ 57 + 3242591731706757 / 2 ^ 55) = d01 := by
  have hq : (1441151880758559 / 2 ^ 57 + 3242591731706757 / 2 ^ 55 : ℚ) = 14411518807585587 / 2 ^ 57 := by norm_num [d01, d02, d03]
  rw [hq, rnd53_eval (14411518807585587 / 2 ^ 57) (-4) (-56) 7205759403792794 (by norm_num) (by norm_num)
    (by norm_num) (roundHalfEven_eq _ _ (by norm_num))]
  norm_num [d01, d02, d03]

theorem scaled64_nsqrt : sqrt53 (d01) = 5696652996790543 / 2 ^ 54 := by
  have hq : (d01 : ℚ) = 3602879701896397 / 2 ^ 55 := by norm_num [d01, d02, d03]
  rw [hq, sqrt53_eval_down (3602879701896397 / 2 ^ 55) (-4) (-54) 32451855365842674479755453005824 5696652996790543 (by norm_num) (by norm_num)
    (by norm_num) (by norm_num) (by norm_num) (by norm_num) (by norm_num) (by norm_num)]
  norm_num [d01, d02, d03]

theorem scaled64_prod : rnd53 (d01 * (5696652996790543 / 2 ^ 54)) = 4557322397432435 / 2 ^ 57 := by
  have hq : (d01 * (5696652996790543 / 2 ^ 54) : ℚ) = 20524355450883928179831695373571 / 2 ^ 109 := by norm_num [d01, d02, d03]
  rw [hq, rnd53_eval (20524355450883928179831695373571 / 2 ^ 109) (-5) (-57) 4557322397432435 (by norm_num) (by norm_num)
    (by norm_num) (roundHalfEven_eq _ _ (by norm_num))]
  norm_num [d01, d02, d03]

theorem update_u_fl_u_at {F : Type} [LinearOrderedField F]
    (rnd : F → F) (w : Work F) (i : Nat) (hi : i < w.data.n + w.data.m) :
    (update_u_fl rnd w).u i =
      rnd (w.u i + rnd (rnd (rnd (w.settings.alpha * w.x i) +
        rnd (rnd (1 - w.settings.alpha) * w.z_prev i)) - w.z i)) := by
  rw [update_u_fl_eq]
  simp only [hi, if_true]

theorem fl_sum_two {F : Type} [LinearOrderedField F] (rnd : F → F) (f : Nat → F) :
    fl_sum rnd f 2 = rnd (rnd (0 + f 0) + f 1) := rfl

theorem stationary64_get_x (i : Nat) : stationary64.x i = d01 := rfl
theorem stationary64_get_z (i : Nat) : stationary64.z i = d01 := rfl
theorem stationary64_get_z_prev (i : Nat) : stationary64.z_prev i = d01 := rfl
theorem stationary64_get_u (i : Nat) : stationary64.u i = 0 := rfl
theorem stationary64_get_alpha : stationary64.settings.alpha = 3 / 2 := rfl
theorem stationary64_get_dim : 0 < stationary64.data.n + stationary64.data.m := by decide

theorem stationary64one_get_x (i : Nat) : stationary64one.x i = d01 := rfl
theorem stationary64one_get_u (i : Nat) : stationary64one.u i = d02 := rfl

theorem interior64_get_x (i : Nat) : interior64.x i = d01 := rfl
theorem interior64_get_z_prev (i : Nat) : interior64.z_prev i = 0 := rfl
theorem interior64_get_u (i : Nat) : interior64.u i = d02 := rfl
theorem interior64_get_alpha : interior64.settings.alpha = 1 := rfl
theorem interior64_get_dim : 0 < interior64.data.n + interior64.data.m := by decide
theorem interior64_get_lower : lowerAt interior64 0 = -1 := rfl
theorem interior64_get_upper : upperAt interior64 0 = 1 := rfl

theorem clamped64_get_x (i : Nat) : clamped64.x i = d01 := rfl
theorem clamped64_get_z_prev (i : Nat) : clamped64.z_prev i = 0 := rfl
theorem clamped64_get_u (i : Nat) : clamped64.u i = d02 := rfl
theorem clamped64_get_alpha : clamped64.settings.alpha = 1 := rfl
theorem clamped64_get_dim : 0 < clamped64.data.n + clamped64.data.m := by decide
theorem clamped64_get_upper : upperAt clamped64 0 = 1 / 4 := rfl

theorem scaled64_get_z_zero : scaled64.z 0 = d01 := rfl
theorem scaled64_get_z_one : scaled64.z 1 = d03 := rfl
theorem scaled64_get_z_prev (i : Nat) : scaled64.z_prev i = 0 := rfl
theorem scaled64_get_rho : scaled64.settings.rho = d01 := rfl
theorem scaled64_get_n : scaled64.data.n = 2 := rfl

theorem update_u_fl_stationary64 :
    (update_u_fl rnd53 stationary64).u 0 = 1 / 2 ^ 56 := by
  rw [update_u_fl_u_at rnd53 stationary64 0 stationary64_get_dim, stationary64_get_x, stationary64_get_z,
    stationary64_get_z_prev, stationary64_get_u, stationary64_get_alpha,
    stationary64_t1, stationary64_t2, stationary64_t3, stationary64_t4, stationary64_t5,
    stationary64_t6]

theorem relaxed_fl_interior64 : relaxed_fl rnd53 interior64 0 = 1351079888211149 / 2 ^ 52 := by
  unfold relaxed_fl
  rw [interior64_get_x, interior64_get_z_prev, interior64_get_u, interior64_get_alpha, one_mul, sub_self,
    rnd53_zero, mul_zero, rnd53_zero, add_zero, rnd53_d01, rnd53_d01, interior64_v]

theorem relaxed_fl_clamped64 : relaxed_fl rnd53 clamped64 0 = 1351079888211149 / 2 ^ 52 := by
  unfold relaxed_fl
  rw [clamped64_get_x, clamped64_get_z_prev, clamped64_get_u, clamped64_get_alpha, one_mul, sub_self,
    rnd53_zero, mul_zero, rnd53_zero, add_zero, rnd53_d01, rnd53_d01, interior64_v]

theorem project_x_fl_interior64 :
    (project_x_fl rnd53 interior64).z 0 = 1351079888211149 / 2 ^ 52 := by
  rw [project_x_fl_z rnd53 interior64 0 interior64_get_dim, relaxed_fl_interior64,
    interior64_get_lower, interior64_get_upper, max_eq_left (by norm_num), min_eq_left (by norm_num)]

theorem update_u_fl_interior64 :
    (update_u_fl rnd53 (project_x_fl rnd53 interior64)).u 0 = -(1 / 2 ^ 55) := by
  rw [update_u_fl_project_x_fl_u rnd53 interior64 0 interior64_get_dim, project_x_fl_interior64,
    interior64_get_x, interior64_get_z_prev, interior64_get_u, interior64_get_alpha, one_mul, sub_self,
    rnd53_zero, mul_zero, rnd53_zero, add_zero, rnd53_d01, rnd53_d01, interior64_inc,
    interior64_u]

theorem dua_term_fl_scaled64_zero :
    dua_term_fl rnd53 scaled64 0 = 461168601842739 / 2 ^ 62 := by
  unfold dua_term_fl
  rw [scaled64_get_z_zero, scaled64_get_z_prev, scaled64_get_rho, sub_zero, rnd53_d01, scaled64_t0,
    scaled64_sq0]

theorem dua_term_fl_scaled64_one :
    dua_term_fl rnd53 scaled64 1 = 4150517416584649 / 2 ^ 62 := by
  unfold dua_term_fl
  rw [scaled64_get_z_one, scaled64_get_z_prev, scaled64_get_rho, sub_zero, rnd53_d03, scaled64_t1,
    scaled64_sq1]

theorem compute_dua_res_fl_scaled64 :
    compute_dua_res_fl rnd53 sqrt53 scaled64 = 2278661198716217 / 2 ^ 56 := by
  rw [compute_dua_res_fl_eq, scaled64_get_n, fl_sum_two, dua_term_fl_scaled64_zero,
    dua_term_fl_scaled64_one, scaled64_acc1, scaled64_acc2, scaled64_sqrt]

theorem vec_norm2_diff_fl_scaled64 :
    vec_norm2_diff_fl rnd53 sqrt53 scaled64.z scaled64.z_prev scaled64.data.n =
      5696652996790543 / 2 ^ 54 := by
  unfold vec_norm2_diff_fl
  rw [scaled64_get_n, fl_sum_two, scaled64_get_z_zero, scaled64_get_z_one, scaled64_get_z_prev,
    scaled64_get_z_prev, sub_zero, sub_zero, rnd53_d01, rnd53_d03, scaled64_t0,
    scaled64_acc1_norm, scaled64_dd1, scaled64_nacc2, scaled64_nsqrt]

end Evals

/-! ## Properties that rounding decides -/

/-- C9, refuted as stated. In binary64, on the stationary state
`x = z = z_prev = [0.1]`, `u = [0]` with `alpha = 1.5` (all representable),
`update_u` stores `u[0] = 2^-56`: the increment
`alpha*x + (1-alpha)*z_prev - z` is a rounding residue, not `0`. -/
theorem stationary_point_rounding :
    (∀ i, i < stationary64.data.n + stationary64.data.m →
      stationary64.x i = stationary64.z i ∧ stationary64.z i = stationary64.z_prev i) ∧
    rnd53 (stationary64.x 0) = stationary64.x 0 ∧
    rnd53 stationary64.settings.alpha = stationary64.settings.alpha ∧
    stationary64.u 0 = 0 ∧
    (update_u_fl rnd53 stationary64).u 0 = 1 / 2 ^ 56 ∧
    (update_u_fl rnd53 stationary64).u ≠ stationary64.u := by
  refine ⟨fun _ _ => ⟨rfl, rfl⟩, rnd53_d01, rnd53_three_halves, rfl, update_u_fl_stationary64, ?_⟩
  intro h
  have h0 := congrFun h 0
  rw [update_u_fl_stationary64] at h0
  have h1 : stationary64.u 0 = 0 := rfl
  rw [h1] at h0
  norm_num at h0

/-- C9, amended. Stationary point with every operation rounded to `c_float`: when
`x = z = z_prev` on all `n+m` entries then, for every `alpha`, `rho` and `u`,
the primal and the dual residual are exactly `0` (rounding and square root
keep `0`); `update_u` leaves `u` unchanged when `alpha = 1` and when
`alpha = 0` (rounding keeps `0`, `1` and the stored entries of `x` and `u`);
and it leaves `u` unchanged for every `alpha` when no operation rounds. -/
theorem stationary_point_rounded {F : Type} [LinearOrderedField F] (rnd c_sqrt : F → F) (w : Work F)
    (hxz : ∀ i, i < w.data.n + w.data.m → w.x i = w.z i)
    (hzp : ∀ i, i < w.data.n + w.data.m → w.z i = w.z_prev i) :
    (rnd 0 = 0 → c_sqrt 0 = 0 →
      compute_pri_res_fl rnd c_sqrt w = 0 ∧ compute_dua_res_fl rnd c_sqrt w = 0) ∧
    (rnd 0 = 0 →
      (∀ i, i < w.data.n + w.data.m → rnd (w.x i) = w.x i ∧ rnd (w.u i) = w.u i) →
      w.settings.alpha = 1 → (update_u_fl rnd w).u = w.u) ∧
    (rnd 0 = 0 → rnd 1 = 1 →
      (∀ i, i < w.data.n + w.data.m → rnd (w.x i) = w.x i ∧ rnd (w.u i) = w.u i) →
      w.settings.alpha = 0 → (update_u_fl rnd w).u = w.u) ∧
    ((∀ a, rnd a = a) → (update_u_fl rnd w).u = w.u) := by
  refine ⟨?_, ?_, ?_, ?_⟩
  · intro h0 hs
    constructor
    · simp only [compute_pri_res_fl, vec_norm2_diff_fl]
      rw [fl_sum_zero rnd h0 _ _ (fun i hi => by
        rw [hxz i (by omega), sub_self, h0, mul_zero, h0]), hs]
    · rw [compute_dua_res_fl_eq]
      rw [fl_sum_zero rnd h0 _ _ (fun i hi => by
        simp only [dua_term_fl]
        rw [← hzp i (by omega), sub_self, h0, mul_zero, h0, mul_zero, h0]), hs]
  · intro h0 hfix ha
    rw [update_u_fl_eq]
    funext j
    by_cases hj : j < w.data.n + w.data.m
    · simp only [hj, if_true, ha, ← hzp j hj, ← hxz j hj, one_mul, sub_self, h0, zero_mul,
        add_zero, (hfix j hj).1, (hfix j hj).2]
    · simp only [hj, if_false]
  · intro h0 h1 hfix ha
    rw [update_u_fl_eq]
    funext j
    by_cases hj : j < w.data.n + w.data.m
    · simp only [hj, if_true, ha, ← hzp j hj, ← hxz j hj, one_mul, sub_self, h0, zero_mul,
        add_zero, zero_add, sub_zero, h1, (hfix j hj).1, (hfix j hj).2]
    · simp only [hj, if_false]
  · intro hexact
    rw [update_u_fl_exact rnd hexact]
    have h := stationary_point_exact (fun _ : F => (0 : F)) rfl w hxz hzp
    exact h.2.2.1

/-- Witness of the amended C9 in binary64 on `stationary64one`
(`x = z = z_prev = [0.1]`, `u = [0.2]`, `alpha = 1`): the residuals are `0`
and `u` is unchanged. -/
theorem stationary_point_rounded_witness :
    (compute_pri_res_fl rnd53 sqrt53 stationary64one = 0 ∧
      compute_dua_res_fl rnd53 sqrt53 stationary64one = 0) ∧
    (update_u_fl rnd53 stationary64one).u = stationary64one.u :=
  ⟨(stationary_point_rounded rnd53 sqrt53 stationary64one (fun _ _ => rfl)
      (fun _ _ => rfl)).1 rnd53_zero sqrt53_zero,
   (stationary_point_rounded rnd53 sqrt53 stationary64one (fun _ _ => rfl)
      (fun _ _ => rfl)).2.1 rnd53_zero (fun _ _ => ⟨rnd53_d01, rnd53_d02⟩) rfl⟩

/-- C11, refuted as stated. In binary64 with `rho = 0.1`, `z = [0.1, 0.3]`,
`z_prev = [0, 0]`, `compute_dua_res` returns `2278661198716217 / 2^56`
(`0.03162277660168379`) while `|rho|` times the norm of `z - z_prev` is
`4557322397432435 / 2^57` (`0.0316227766016838`), rounded or not. -/
theorem dua_res_scaling_rounding :
    compute_dua_res_fl rnd53 sqrt53 scaled64 = 2278661198716217 / 2 ^ 56 ∧
    vec_norm2_diff_fl rnd53 sqrt53 scaled64.z scaled64.z_prev scaled64.data.n =
      5696652996790543 / 2 ^ 54 ∧
    rnd53 (|scaled64.settings.rho| *
      vec_norm2_diff_fl rnd53 sqrt53 scaled64.z scaled64.z_prev scaled64.data.n) =
        4557322397432435 / 2 ^ 57 ∧
    compute_dua_res_fl rnd53 sqrt53 scaled64 ≠
      rnd53 (|scaled64.settings.rho| *
        vec_norm2_diff_fl rnd53 sqrt53 scaled64.z scaled64.z_prev scaled64.data.n) ∧
    compute_dua_res_fl rnd53 sqrt53 scaled64 ≠
      |scaled64.settings.rho| *
        vec_norm2_diff_fl rnd53 sqrt53 scaled64.z scaled64.z_prev scaled64.data.n := by
  have hrho : |scaled64.settings.rho| = d01 := by
    show |d01| = d01
    exact abs_of_nonneg (by norm_num [d01])
  have hprod : rnd53 (|scaled64.settings.rho| *
      vec_norm2_diff_fl rnd53 sqrt53 scaled64.z scaled64.z_prev scaled64.data.n) =
        4557322397432435 / 2 ^ 57 := by
    rw [vec_norm2_diff_fl_scaled64, hrho, scaled64_prod]
  refine ⟨compute_dua_res_fl_scaled64, vec_norm2_diff_fl_scaled64, hprod, ?_, ?_⟩
  · rw [hprod, compute_dua_res_fl_scaled64]
    norm_num
  · rw [vec_norm2_diff_fl_scaled64, hrho, compute_dua_res_fl_scaled64]
    norm_num [d01]

/-- C11, amended. With every operation rounded to `c_float`, `compute_dua_res`
returns the square root of the sum, accumulated over `i < n`, of the squares
of `rho*(z[i] - z_prev[i])`; it is not negative (rounding and square root keep
non-negative numbers non-negative); and it is the same on every workspace
with the same `n`, `rho` and the same entries of `z` and `z_prev` below `n`,
so the entries in `[n, n+m)` do not matter. When no operation rounds it is
the square root of the sum over `i < n` of `(rho*(z[i] - z_prev[i]))^2`, and
with an exact square root it then equals `|rho|` times the norm of
`z[0..n) - z_prev[0..n)`. -/
theorem compute_dua_res_rounded {F : Type} [LinearOrderedField F] (rnd c_sqrt : F → F) (w : Work F) :
    compute_dua_res_fl rnd c_sqrt w =
      c_sqrt (fl_sum rnd (fun i =>
        rnd (rnd (w.settings.rho * rnd (w.z i - w.z_prev i)) *
          rnd (w.settings.rho * rnd (w.z i - w.z_prev i)))) w.data.n) ∧
    ((∀ a, 0 ≤ a → 0 ≤ rnd a) → (∀ a, 0 ≤ a → 0 ≤ c_sqrt a) →
      0 ≤ compute_dua_res_fl rnd c_sqrt w) ∧
    (∀ w2 : Work F, w2.data.n = w.data.n → w2.settings.rho = w.settings.rho →
      (∀ i, i < w.data.n → w2.z i = w.z i) →
      (∀ i, i < w.data.n → w2.z_prev i = w.z_prev i) →
      compute_dua_res_fl rnd c_sqrt w2 = compute_dua_res_fl rnd c_sqrt w) ∧
    ((∀ a, rnd a = a) →
      compute_dua_res_fl rnd c_sqrt w =
        c_sqrt (∑ i in Finset.range w.data.n,
          (w.settings.rho * (w.z i - w.z_prev i)) ^ 2)) ∧
    ((∀ a, rnd a = a) → (∀ a, 0 ≤ a → 0 ≤ c_sqrt a) →
      (∀ a, 0 ≤ a → c_sqrt a * c_sqrt a = a) →
      compute_dua_res_fl rnd c_sqrt w =
        |w.settings.rho| *
          c_sqrt (∑ i in Finset.range w.data.n, (w.z i - w.z_prev i) ^ 2)) := by
  refine ⟨?_, ?_, ?_, ?_, ?_⟩
  · rw [compute_dua_res_fl_eq]
    rfl
  · intro hr hnn
    rw [compute_dua_res_fl_eq]
    apply hnn
    apply fl_sum_nonneg rnd hr
    intro i _
    exact hr _ (mul_self_nonneg _)
  · intro w2 hn hrho hz hzp
    rw [compute_dua_res_fl_eq, compute_dua_res_fl_eq, hn]
    congr 1
    apply fl_sum_congr
    intro i hi
    simp only [dua_term_fl, hrho, hz i hi, hzp i hi]
  · intro hexact
    rw [compute_dua_res_fl_exact rnd c_sqrt hexact, compute_dua_res_eq]
    simp only [sq]
  · intro hexact hnn hsq
    rw [compute_dua_res_fl_exact rnd c_sqrt hexact]
    exact (compute_dua_res_norm_exact c_sqrt hnn hsq w).2.2.1

/-- Witness of the amended C11: in binary64 on `scaled64` the result is not
negative, and over the reals without rounding on `fieldWork ℝ` (`rho = 3`,
`z[0] - z_prev[0] = 1`) it is `|3|` times the norm `1`. -/
theorem compute_dua_res_rounded_witness :
    0 ≤ compute_dua_res_fl rnd53 sqrt53 scaled64 ∧
    compute_dua_res_fl (fun a => a) Real.sqrt (fieldWork ℝ) =
      |(fieldWork ℝ).settings.rho| *
        Real.sqrt (∑ i in Finset.range (fieldWork ℝ).data.n,
          ((fieldWork ℝ).z i - (fieldWork ℝ).z_prev i) ^ 2) :=
  ⟨(compute_dua_res_rounded rnd53 sqrt53 scaled64).2.1 rnd53_nonneg
      (fun a _ => sqrt53_nonneg a),
   (compute_dua_res_rounded (fun a => a) Real.sqrt (fieldWork ℝ)).2.2.2.2 (fun _ => rfl)
      (fun a _ => Real.sqrt_nonneg a) (fun _ ha => Real.mul_self_sqrt ha)⟩

/-- C17, refuted as stated. In binary64 with `alpha = 1`, `x = [0.1]`,
`z_prev = [0]`, `u = [0.2]` and bounds `[-1, 1]`, after `project_x` and
`update_u` the entry `z[0] = 0.30000000000000004` is strictly inside its
bounds while `u_after[0] = -2^-55`: it is neither `0`, nor is `z[0]` the lower
bound. -/
theorem projection_remainder_rounding :
    rnd53 (interior64.x 0) = interior64.x 0 ∧ rnd53 (interior64.u 0) = interior64.u 0 ∧
    lowerAt interior64 0 ≤ upperAt interior64 0 ∧
    (update_u_fl rnd53 (project_x_fl rnd53 interior64)).z 0 = 1351079888211149 / 2 ^ 52 ∧
    lowerAt interior64 0 < (update_u_fl rnd53 (project_x_fl rnd53 interior64)).z 0 ∧
    (update_u_fl rnd53 (project_x_fl rnd53 interior64)).z 0 < upperAt interior64 0 ∧
    (update_u_fl rnd53 (project_x_fl rnd53 interior64)).u 0 = -(1 / 2 ^ 55) ∧
    (update_u_fl rnd53 (project_x_fl rnd53 interior64)).u 0 < 0 ∧
    (update_u_fl rnd53 (project_x_fl rnd53 interior64)).z 0 ≠ lowerAt interior64 0 := by
  have hz : (update_u_fl rnd53 (project_x_fl rnd53 interior64)).z 0 =
      1351079888211149 / 2 ^ 52 := by
    rw [update_u_fl_project_x_fl_z, project_x_fl_interior64]
  have hl : lowerAt interior64 0 = -1 := rfl
  have hu : upperAt interior64 0 = 1 := rfl
  rw [hz, update_u_fl_interior64, hl, hu]
  refine ⟨rnd53_d01, rnd53_d02, ?_, rfl, ?_, ?_, rfl, ?_, ?_⟩ <;> norm_num

/-- C17, amended. Projection followed by dual update with every operation rounded
to `c_float`: writing `v[i]` for the relaxed value as `project_x` computes it,
at every `i < n+m`, `z[i] = min(max(v[i], lower[i]), upper[i])` and
`update_u` does not change `z`; for a monotone rounding that keeps `0`,
`-u_before[i]` and the bound in question: `v[i] < lower[i] ≤ upper[i]`
implies `z[i] = lower[i]` and `u_after[i] ≤ 0`, and `v[i] > upper[i]` implies
`z[i] = upper[i]` and `u_after[i] ≥ 0`. When no operation rounds,
`z[i] + u_after[i] = v[i]`, `u_after[i] = v[i] - clamp(v[i])` and, for
`lower[i] ≤ upper[i]`, `u_after[i] > 0` implies `z[i] = upper[i]`,
`u_after[i] < 0` implies `z[i] = lower[i]`, and `z[i]` strictly inside its
bounds implies `u_after[i] = 0`. -/
theorem projection_remainder_rounded {F : Type} [LinearOrderedField F] (rnd : F → F) (w : Work F) (i : Nat)
    (hi : i < w.data.n + w.data.m) :
    (project_x_fl rnd w).z i =
      min (max (relaxed_fl rnd w i) (lowerAt w i)) (upperAt w i) ∧
    (update_u_fl rnd (project_x_fl rnd w)).z i = (project_x_fl rnd w).z i ∧
    ((∀ a b, a ≤ b → rnd a ≤ rnd b) → rnd 0 = 0 → rnd (-(w.u i)) = -(w.u i) →
      (rnd (lowerAt w i) = lowerAt w i → lowerAt w i ≤ upperAt w i →
        relaxed_fl rnd w i < lowerAt w i →
        (update_u_fl rnd (project_x_fl rnd w)).z i = lowerAt w i ∧
          (update_u_fl rnd (project_x_fl rnd w)).u i ≤ 0) ∧
      (rnd (upperAt w i) = upperAt w i → upperAt w i < relaxed_fl rnd w i →
        (update_u_fl rnd (project_x_fl rnd w)).z i = upperAt w i ∧
          0 ≤ (update_u_fl rnd (project_x_fl rnd w)).u i)) ∧
    ((∀ a, rnd a = a) →
      (update_u_fl rnd (project_x_fl rnd w)).z i + (update_u_fl rnd (project_x_fl rnd w)).u i =
        relaxedAt w i ∧
      (update_u_fl rnd (project_x_fl rnd w)).u i =
        relaxedAt w i - min (max (relaxedAt w i) (lowerAt w i)) (upperAt w i) ∧
      (lowerAt w i ≤ upperAt w i →
        (0 < (update_u_fl rnd (project_x_fl rnd w)).u i →
          (update_u_fl rnd (project_x_fl rnd w)).z i = upperAt w i) ∧
        ((update_u_fl rnd (project_x_fl rnd w)).u i < 0 →
          (update_u_fl rnd (project_x_fl rnd w)).z i = lowerAt w i) ∧
        (lowerAt w i < (update_u_fl rnd (project_x_fl rnd w)).z i →
          (update_u_fl rnd (project_x_fl rnd w)).z i < upperAt w i →
          (update_u_fl rnd (project_x_fl rnd w)).u i = 0))) := by
  refine ⟨project_x_fl_z rnd w i hi, by rw [update_u_fl_project_x_fl_z], ?_, ?_⟩
  · intro hmono h0 hnu
    rw [update_u_fl_project_x_fl_z, update_u_fl_project_x_fl_u rnd w i hi,
      project_x_fl_z rnd w i hi]
    constructor
    · intro hl hlu hv
      have hz : min (max (relaxed_fl rnd w i) (lowerAt w i)) (upperAt w i) = lowerAt w i := by
        rw [max_eq_right (le_of_lt hv), min_eq_left hlu]
      rw [hz]
      refine ⟨rfl, ?_⟩
      have hlt : rnd (rnd (w.settings.alpha * w.x i) +
          rnd (rnd (1 - w.settings.alpha) * w.z_prev i)) + w.u i < lowerAt w i := by
        by_contra hc
        have := hmono _ _ (not_lt.mp hc)
        rw [hl] at this
        exact absurd hv (not_lt.mpr this)
      have h1 := hmono (rnd (rnd (w.settings.alpha * w.x i) +
          rnd (rnd (1 - w.settings.alpha) * w.z_prev i)) - lowerAt w i) (-(w.u i))
          (by linarith)
      rw [hnu] at h1
      have h2 := hmono (w.u i + rnd (rnd (rnd (w.settings.alpha * w.x i) +
          rnd (rnd (1 - w.settings.alpha) * w.z_prev i)) - lowerAt w i)) 0 (by linarith)
      rw [h0] at h2
      exact h2
    · intro hup hv
      have hz : min (max (relaxed_fl rnd w i) (lowerAt w i)) (upperAt w i) = upperAt w i :=
        min_eq_right (le_trans (le_of_lt hv) (le_max_left _ _))
      rw [hz]
      refine ⟨rfl, ?_⟩
      have hlt : upperAt w i < rnd (rnd (w.settings.alpha * w.x i) +
          rnd (rnd (1 - w.settings.alpha) * w.z_prev i)) + w.u i := by
        by_contra hc
        have := hmono _ _ (not_lt.mp hc)
        rw [hup] at this
        exact absurd hv (not_lt.mpr this)
      have h1 := hmono (-(w.u i)) (rnd (rnd (w.settings.alpha * w.x i) +
          rnd (rnd (1 - w.settings.alpha) * w.z_prev i)) - upperAt w i) (by linarith)
      rw [hnu] at h1
      have h2 := hmono 0 (w.u i + rnd (rnd (rnd (w.settings.alpha * w.x i) +
          rnd (rnd (1 - w.settings.alpha) * w.z_prev i)) - upperAt w i)) (by linarith)
      rw [h0] at h2
      exact h2
  · intro hexact
    rw [project_x_fl_exact rnd hexact, update_u_fl_exact rnd hexact]
    exact projection_remainder_exact w i hi

/-- Witness of the amended C17 in binary64 on `clamped64` (`x = [0.1]`,
`u = [0.2]`, `alpha = 1`, upper bound `0.25`): the relaxed value
`0.30000000000000004` is above the bound, so `z[0] = 0.25` and the new dual
is not negative. -/
theorem projection_remainder_rounded_witness :
    (update_u_fl rnd53 (project_x_fl rnd53 clamped64)).z 0 = upperAt clamped64 0 ∧
      0 ≤ (update_u_fl rnd53 (project_x_fl rnd53 clamped64)).u 0 :=
  ((projection_remainder_rounded rnd53 clamped64 0 (by decide)).2.2.1 rnd53_mono rnd53_zero
    (by show rnd53 (-d02) = -d02
        rw [rnd53_neg, rnd53_d02])).2
    (by show rnd53 (1 / 4) = 1 / 4
        exact rnd53_quarter)
    (by rw [relaxed_fl_clamped64]
        show (1 / 4 : ℚ) < _
        norm_num)

end OSQP
